import Mathlib

/-!
Verification of the `PascalVOC` dataset utility
(`cnnlevelset/pascalvoc_util.py`).

The Python class is shallowly embedded below.  Pixel and size values are
modelled as rationals (the source uses Python floats), manifests loaded by
`pd.read_csv(..., header=None, delim_whitespace=True)` are modelled as a
table of rows of whitespace-separated fields, and ambient randomness
(`np.random.randint`, `DataFrame.sample`) is modelled by explicit selection
arguments quantified over in the theorems.  Fallible operations return
`Except VocError`.
-/

set_option maxRecDepth 4000

/-- Error taxonomy of the embedded code: a failed `assert` on the minibatch
mode, a `KeyError` on `label2idx` (unknown class label), a missing
per-image annotation file, a missing image file or other I/O failure,
`pandas.sample` refusing an oversized draw, numpy fancy-indexing out of
range, and the row-count `assert` of `get_test_data`. -/
inductive VocError where
  | assertionError
  | unknownLabel
  | annotNotFound
  | ioError
  | valueError
  | indexError
  | shapeMismatch
  deriving Repr, DecidableEq

instance {ε α : Type} [DecidableEq ε] [DecidableEq α] : DecidableEq (Except ε α) := fun x y =>
  match x, y with
  | .error e, .error f =>
    if h : e = f then .isTrue (by rw [h]) else .isFalse (fun hc => h (Except.error.inj hc))
  | .error _, .ok _ => .isFalse (fun hc => Except.noConfusion hc)
  | .ok _, .error _ => .isFalse (fun hc => Except.noConfusion hc)
  | .ok a, .ok b =>
    if h : a = b then .isTrue (by rw [h]) else .isFalse (fun hc => h (Except.ok.inj hc))

/-- The fixed 20-class vocabulary, `PascalVOC.labels` in the source. -/
def labels : List String :=
  ["person", "bird", "cat", "cow", "dog", "horse", "sheep",
   "aeroplane", "bicycle", "boat", "bus", "car", "motorbike", "train",
   "bottle", "chair", "diningtable", "pottedplant", "sofa", "tvmonitor"]

def label2idxAux : List String → Nat → String → Option Nat
  | [], _, _ => none
  | l :: rest, i, name => if l = name then some i else label2idxAux rest (i + 1) name

/-- `PascalVOC.label2idx`: the dictionary built by enumerating `labels`;
`none` models the `KeyError` raised on a name outside the vocabulary. -/
def label2idx (name : String) : Option Nat := label2idxAux labels 0 name

/-- A raw pixel-space bounding box, the `bndbox` record of one object. -/
structure BBoxRaw where
  xmin : ℚ
  ymin : ℚ
  xmax : ℚ
  ymax : ℚ
  deriving Repr, DecidableEq

/-- One `object` entry of an annotation file. -/
structure VocObject where
  name : String
  bndbox : BBoxRaw
  deriving Repr, DecidableEq

/-- The `object` field as decoded by `xmltodict`: a single record or a
list of records.  `get_class_bbox` normalizes the single case to a
one-element list before iterating. -/
inductive VocObjs where
  | one : VocObject → VocObjs
  | many : List VocObject → VocObjs
  deriving Repr, DecidableEq

/-- A per-image annotation record: `annotation.size` and the objects. -/
structure AnnRecord where
  width : ℚ
  height : ℚ
  objs : VocObjs
  deriving Repr, DecidableEq

/-- The object list after the `if type(objs) is not list: objs = [objs]`
normalization in `get_class_bbox`. -/
def AnnRecord.objList (r : AnnRecord) : List VocObject :=
  match r.objs with
  | .one o => [o]
  | .many os => os

/-- `PascalVOC._normalize_bbox`: divide x-values by the width and
y-values by the height, returning `[xmin, ymin, xmax, ymax]`. -/
def normalizeBbox (b : BBoxRaw) (w h : ℚ) : List ℚ :=
  [b.xmin / w, b.ymin / h, b.xmax / w, b.ymax / h]

/-- The all-zero bbox row (a row of `np.zeros(shape=[.., 4])`). -/
def zeroRow : List ℚ := [0, 0, 0, 0]

/-- The first loop of `get_class_bbox`: walk the objects, setting the
presence flag of each object's class and appending
`(class index, normalized box)` to the bucket list, failing with
`unknownLabel` on a name outside the vocabulary. -/
def collectObjs (w h : ℚ) :
    List VocObject → List ℚ → List (Nat × List ℚ) →
    Except VocError (List ℚ × List (Nat × List ℚ))
  | [], clses, pairs => .ok (clses, pairs)
  | o :: rest, clses, pairs =>
    match label2idx o.name with
    | none => .error .unknownLabel
    | some idx =>
        collectObjs w h rest (clses.set idx 1) (pairs ++ [(idx, normalizeBbox o.bndbox w h)])

/-- `bbox_cls[k]`: the bucket of normalized boxes of class `k`, in the
order the objects were appended. -/
def bucket (pairs : List (Nat × List ℚ)) (k : Nat) : List (List ℚ) :=
  (pairs.filter (fun p => p.1 == k)).map Prod.snd

/-- The core of `PascalVOC.get_class_bbox`, acting on an already decoded
record.  `rand k n` models the `np.random.randint(0, n)` draw used for
class `k`; a faithful random source satisfies `0 < n → rand k n < n`.
Row `k` of the bbox matrix keeps its zeros when class `k` received no
box, and otherwise holds the bucket element chosen by `rand`. -/
def getClassBboxRec (rec : AnnRecord) (rand : Nat → Nat → Nat) :
    Except VocError (List ℚ × List (List ℚ)) :=
  match collectObjs rec.width rec.height rec.objList (List.replicate labels.length 0) [] with
  | .error e => .error e
  | .ok (clses, pairs) =>
      let bboxes := (List.range labels.length).map (fun k =>
        let v := bucket pairs k
        if v.isEmpty then zeroRow else v.getD (rand k v.length) zeroRow)
      .ok (clses, bboxes)

/-- Whether some object of the record carries class index `i`. -/
def classPresent (rec : AnnRecord) (i : Nat) : Prop :=
  ∃ o ∈ rec.objList, label2idx o.name = some i

instance (rec : AnnRecord) (i : Nat) : Decidable (classPresent rec i) := by
  unfold classPresent; infer_instance

section CollectLemmas

theorem label2idxAux_lt_length (l : List String) (n : Nat) (name : String) (i : Nat)
    (h : label2idxAux l n name = some i) : i < n + l.length := by
  induction l generalizing n with
  | nil => simp [label2idxAux] at h
  | cons a rest ih =>
    rw [label2idxAux] at h
    split at h
    · injection h with h
      simp only [List.length_cons]
      omega
    · have := ih (n + 1) h
      simp only [List.length_cons]
      omega

theorem label2idx_lt_length (name : String) (i : Nat)
    (h : label2idx name = some i) : i < labels.length := by
  have := label2idxAux_lt_length labels 0 name i h
  simpa using this

/-- `collectObjs` succeeds exactly when every object's name is in the
vocabulary, and then the accumulated pairs are the per-object
`(index, normalized box)` pairs appended in order. -/
theorem collectObjs_ok (w h : ℚ) (objs : List VocObject) (clses : List ℚ)
    (pairs : List (Nat × List ℚ)) (c' : List ℚ) (p' : List (Nat × List ℚ))
    (hok : collectObjs w h objs clses pairs = .ok (c', p')) :
    (∀ o ∈ objs, (label2idx o.name).isSome) ∧
    p' = pairs ++ objs.map (fun o => ((label2idx o.name).getD 0, normalizeBbox o.bndbox w h)) := by
  induction objs generalizing clses pairs with
  | nil =>
    simp [collectObjs] at hok
    simp [hok.2]
  | cons o rest ih =>
    simp only [collectObjs] at hok
    cases hidx : label2idx o.name with
    | none => simp [hidx] at hok
    | some idx =>
      simp only [hidx] at hok
      have ⟨h1, h2⟩ := ih (clses.set idx 1) (pairs ++ [(idx, normalizeBbox o.bndbox w h)]) hok
      refine ⟨?_, ?_⟩
      · intro o' ho'
        rcases List.mem_cons.mp ho' with ho2 | ho2
        · subst ho2; simp [hidx]
        · exact h1 o' ho2
      · simp [h2, hidx]

/-- `collectObjs` fails (necessarily with `unknownLabel`) exactly when
some object's name is outside the vocabulary. -/
theorem collectObjs_error_iff (w h : ℚ) (objs : List VocObject) (clses : List ℚ)
    (pairs : List (Nat × List ℚ)) :
    collectObjs w h objs clses pairs = .error .unknownLabel ↔
      ∃ o ∈ objs, label2idx o.name = none := by
  induction objs generalizing clses pairs with
  | nil => simp [collectObjs]
  | cons o rest ih =>
    simp only [collectObjs]
    cases hidx : label2idx o.name with
    | none => simp [hidx]
    | some idx =>
      simp only [hidx]
      rw [ih]
      constructor
      · rintro ⟨o', ho', hn⟩
        exact ⟨o', List.mem_cons_of_mem _ ho', hn⟩
      · rintro ⟨o', ho', hn⟩
        rcases List.mem_cons.mp ho' with ho2 | ho2
        · subst ho2; rw [hidx] at hn; cases hn
        · exact ⟨o', ho2, hn⟩

/-- The presence vector computed by `collectObjs`: index `i` is set to `1`
exactly when some processed object has class `i`; otherwise the entry of
the accumulator survives. -/
theorem collectObjs_clses (w h : ℚ) (objs : List VocObject) (clses : List ℚ)
    (pairs : List (Nat × List ℚ)) (c' : List ℚ) (p' : List (Nat × List ℚ))
    (hok : collectObjs w h objs clses pairs = .ok (c', p')) (i : Nat) :
    ((∃ o ∈ objs, label2idx o.name = some i) → i < clses.length → c'.get? i = some 1) ∧
    ((¬ ∃ o ∈ objs, label2idx o.name = some i) → c'.get? i = clses.get? i) ∧
    c'.length = clses.length := by
  induction objs generalizing clses pairs with
  | nil =>
    simp [collectObjs] at hok
    simp [hok.1]
  | cons o rest ih =>
    simp only [collectObjs] at hok
    cases hidx : label2idx o.name with
    | none => simp [hidx] at hok
    | some idx =>
      simp only [hidx] at hok
      have ⟨ih1, ih2, ih3⟩ := ih (clses.set idx 1) (pairs ++ [(idx, normalizeBbox o.bndbox w h)]) hok
      refine ⟨?_, ?_, ?_⟩
      · rintro ⟨o', ho', hi⟩ hlen
        rcases List.mem_cons.mp ho' with ho2 | ho2
        · rw [ho2, hidx] at hi
          have hii : idx = i := Option.some.inj hi
          by_cases hrest : ∃ x ∈ rest, label2idx x.name = some i
          · exact ih1 hrest (by simpa using hlen)
          · rw [ih2 hrest, hii]
            exact List.get?_set_eq_of_lt 1 hlen
        · exact ih1 ⟨o', ho2, hi⟩ (by simpa using hlen)
      · intro hnone
        have hni : idx ≠ i := by
          intro hcontra
          exact hnone ⟨o, List.mem_cons_self o rest, by rw [hidx, hcontra]⟩
        have hrest : ¬ ∃ x ∈ rest, label2idx x.name = some i := by
          intro ⟨o', ho', hi⟩
          exact hnone ⟨o', List.mem_cons_of_mem _ ho', hi⟩
        rw [ih2 hrest, List.get?_set_ne _ _ hni]
      · rw [ih3, List.length_set]

end CollectLemmas

/-- A manifest table as produced by
`pd.read_csv(filename, header=None, delim_whitespace=True)`: a list of
rows of whitespace-separated fields.  `pandas` gives a rectangular frame;
rectangularity is assumed in the theorems that need it. -/
structure Pdf where
  rows : List (List String)
  deriving Repr, DecidableEq

/-- `DataFrame.size`: the number of ELEMENTS of the frame, i.e. the
number of rows times the number of columns (not the number of rows). -/
def Pdf.size (d : Pdf) : Nat := (d.rows.map List.length).sum

/-- `X[a:b]`: positional row slicing with Python clamping semantics. -/
def Pdf.slice (d : Pdf) (a b : Nat) : Pdf := ⟨(d.rows.take b).drop a⟩

/-- `img_names[self.img_idx]` with `img_idx = 0`: the first column, the
image identifiers of the manifest. -/
def Pdf.col0 (d : Pdf) : List String := d.rows.map (fun r => r.getD 0 "")

/-- `X.sample(size)` for a concrete draw: `sel` is the list of row
positions chosen by the sampler.  `pandas` guarantees a draw of `size`
distinct in-range positions; the theorems quantify over every such
`sel`. -/
def Pdf.sampleRows (d : Pdf) (sel : List Nat) : Pdf :=
  ⟨sel.filterMap (fun i => d.rows.get? i)⟩

/-- The dataset state: the three manifests loaded at construction and
the sequential-minibatch cursor `mb_idx` (initialised to 0). -/
structure PascalVOC where
  train_singleobj : Pdf
  train_multiobj : Pdf
  test_set : Pdf
  mb_idx : Nat
  deriving Repr, DecidableEq

/-- Lines 57-61 of the source: take the slice `[idx, idx+size)`, advance
the cursor by `size`, and reset it to 0 when the advanced cursor reaches
or exceeds `X.size` (the frame's ELEMENT count). -/
def seqStep (X : Pdf) (idx size : Nat) : Pdf × Nat :=
  let mb := X.slice idx (idx + size)
  let adv := idx + size
  (mb, if X.size ≤ adv then 0 else adv)

/-- Lines 46-61 of `next_image_minibatch`: the identifier-selection part.
The `assert mode in ('single', 'multi')` comes first; `random = true`
draws `sel` via `X.sample(size)` (which raises `ValueError` when `size`
exceeds the row count); `random = false` runs the sequential cursor,
resetting it first when `reset = true`.  Returns the drawn rows and the
updated dataset state. -/
def selectMinibatch (voc : PascalVOC) (size : Nat) (random reset : Bool)
    (mode : String) (sel : List Nat) : Except VocError Pdf × PascalVOC :=
  if ¬ (mode = "single" ∨ mode = "multi") then (.error .assertionError, voc)
  else
    let X := if mode = "single" then voc.train_singleobj else voc.train_multiobj
    if random then
      if size ≤ X.rows.length then (.ok (X.sampleRows sel), voc)
      else (.error .valueError, voc)
    else
      let idx0 := if reset then 0 else voc.mb_idx
      let r := seqStep X idx0 size
      (.ok r.1, { voc with mb_idx := r.2 })

/-- `k` consecutive sequential (`random=False`, `reset=False`) calls of
the selection part of `next_image_minibatch`, collecting the drawn
row batches in order. -/
def iterateSeq (size : Nat) (mode : String) : PascalVOC → Nat → List Pdf × PascalVOC
  | voc, 0 => ([], voc)
  | voc, Nat.succ k =>
    let r := selectMinibatch voc size false false mode []
    let rest := iterateSeq size mode r.2 k
    ((match r.1 with
      | .ok mb => mb :: rest.1
      | .error _ => rest.1), rest.2)

/-- The collaborator boundary of one minibatch call: how an identifier
resolves to a decoded image (`io.imread`, `none` models the I/O error on
a missing file), how it resolves to a decoded annotation record
(`open` + `xmltodict.parse`, `none` models the missing-file error), and
the ambient `np.random.randint` source used for per-class box choice. -/
structure Env (Img : Type) where
  imgSrc : String → Option Img
  annots : String → Option AnnRecord
  rand : Nat → Nat → Nat

/-- `PascalVOC.get_class_bbox`: read and decode the annotation file of
one identifier, then build the (presence vector, bbox matrix) pair. -/
def getClassBbox (env : Env Img) (id : String) :
    Except VocError (List ℚ × List (List ℚ)) :=
  match env.annots id with
  | none => .error .annotNotFound
  | some rec => getClassBboxRec rec env.rand

/-- `np.column_stack((clses, bboxes))`: row `i` of the 20×5 annotation
tensor is the presence flag followed by the four bbox entries. -/
def columnStack (clses : List ℚ) (bboxes : List (List ℚ)) : List (List ℚ) :=
  clses.zipWith (fun c row => c :: row) bboxes

/-- One item of `load_annotations`: decode the annotation of one
identifier and column-stack it. -/
def resolveAnnot (env : Env Img) (id : String) : Except VocError (List (List ℚ)) :=
  match getClassBbox env id with
  | .error e => .error e
  | .ok (c, b) => .ok (columnStack c b)

/-- `PascalVOC.load_images`: the list comprehension decodes the images
of the batch in order and raises at the first missing one. -/
def loadImagesM (f : String → Option Img) : List String → Except VocError (List Img)
  | [] => .ok []
  | id :: rest =>
    match f id with
    | none => .error .ioError
    | some img =>
      match loadImagesM f rest with
      | .error e => .error e
      | .ok imgs => .ok (img :: imgs)

/-- `PascalVOC.load_annotations`: the list comprehension resolves the
annotation tensors of the batch in order and raises at the first
failure. -/
def loadAnnotsM (env : Env Img) : List String → Except VocError (List (List (List ℚ)))
  | [] => .ok []
  | id :: rest =>
    match resolveAnnot env id with
    | .error e => .error e
    | .ok t =>
      match loadAnnotsM env rest with
      | .error e => .error e
      | .ok ts => .ok (t :: ts)

/-- Line 63 of the source: `return self.load_images(mb), self.load_annotations(mb)`
(tuple elements evaluate left to right, so images load first). -/
def loadBatch (env : Env Img) (mb : Pdf) :
    Except VocError (List Img × List (List (List ℚ))) :=
  match loadImagesM env.imgSrc mb.col0 with
  | .error e => .error e
  | .ok imgs =>
    match loadAnnotsM env mb.col0 with
    | .error e => .error e
    | .ok anns => .ok (imgs, anns)

/-- `PascalVOC.next_image_minibatch`: select the identifiers (mutating
the cursor) and then materialize the batch.  The cursor mutation of the
sequential branch happens before any I/O, so the returned state is the
post-selection state even when materialization fails. -/
def nextImageMinibatch (env : Env Img) (voc : PascalVOC) (size : Nat)
    (random reset : Bool) (mode : String) (sel : List Nat) :
    Except VocError (List Img × List (List (List ℚ))) × PascalVOC :=
  let r := selectMinibatch voc size random reset mode sel
  match r.1 with
  | .error e => (.error e, r.2)
  | .ok mb => (loadBatch env mb, r.2)

/-- `idxes = imgs.index.tolist()` in `get_test_data`: the manifest
positions of the drawn rows.  `read_csv` labels rows with their position,
so `head(size)` yields positions `0..min(size,N)-1` and `sample(size)`
yields the drawn positions themselves. -/
def testIdxSel (voc : PascalVOC) (size : Nat) (random : Bool) (sel : List Nat) : List Nat :=
  if random then sel else List.range (min size voc.test_set.rows.length)

/-- `X[idxes]` on a loaded feature (or label) array: numpy fancy
indexing, raising `IndexError` (modelled by `none`) when a position is
out of range. -/
def selectRowsM (A : List α) : List Nat → Option (List α)
  | [] => some []
  | i :: rest =>
    match A.get? i with
    | none => none
    | some r =>
      match selectRowsM A rest with
      | none => none
      | some rs => some (r :: rs)

/-- `PascalVOC.get_test_data`: draw `size` rows from the test manifest
(`sample` or `head`), decode their images, load the persisted test
feature and label arrays (`feats`, `labs`), select the rows at the drawn
manifest positions, and assert the three row counts agree. -/
def getTestData (env : Env Img) (voc : PascalVOC) (size : Nat) (random : Bool)
    (sel : List Nat) (feats : List F) (labs : List L) :
    Except VocError (List Img × List F × List L) :=
  if random ∧ ¬ size ≤ voc.test_set.rows.length then .error .valueError
  else
    let idxes := testIdxSel voc size random sel
    let imgs : Pdf := ⟨idxes.filterMap (fun i => voc.test_set.rows.get? i)⟩
    match loadImagesM env.imgSrc imgs.col0 with
    | .error e => .error e
    | .ok ximg =>
      match selectRowsM feats idxes with
      | none => .error .indexError
      | some xr =>
        match selectRowsM labs idxes with
        | none => .error .indexError
        | some yr =>
          if ximg.length = xr.length ∧ xr.length = yr.length then .ok (ximg, xr, yr)
          else .error .shapeMismatch

/-- Python 3 `round` (round half to even) followed by `int(...)`, as in
`int(round(x))` of `draw_bbox`. -/
def pyRound (q : ℚ) : ℤ :=
  let f := ⌊q⌋
  let r := q - f
  if r < 1 / 2 then f
  else if 1 / 2 < r then f + 1
  else if f % 2 = 0 then f else f + 1

/-- Denormalization as performed by `draw_bbox` on a normalized
`[xmin, ymin, xmax, ymax]` row: multiply x-values by the width, y-values
by the height, and round to the nearest integer. -/
def denormBbox (nb : List ℚ) (w h : ℚ) : List ℤ :=
  [pyRound (nb.getD 0 0 * w), pyRound (nb.getD 1 0 * h),
   pyRound (nb.getD 2 0 * w), pyRound (nb.getD 3 0 * h)]

/-- Python/numpy slice-bound normalization for an axis of length `n`:
negative bounds count from the end, then clamp into `[0, n]`. -/
def pySliceIdx (n : Nat) (i : ℤ) : Nat :=
  if i < 0 then (max (i + n) 0).toNat else min i.toNat n

/-- Whether index `k` falls in the normalized slice `[a:b]` of an axis of
length `n`. -/
def inSlice (n : Nat) (a b : ℤ) (k : Nat) : Bool :=
  decide (pySliceIdx n a ≤ k ∧ k < pySliceIdx n b)

/-- Indexed map with an explicit starting index (used to embed the
row/column traversal of a 2-D slice assignment). -/
def mapWithIdx (f : Nat → α → β) : Nat → List α → List β
  | _, [] => []
  | n, a :: rest => f n a :: mapWithIdx f (n + 1) rest

/-- `arr[r1:r2, c1:c2] = v` on a 2-D array stored as a list of rows:
every cell whose row index falls in the normalized `[r1:r2]` and whose
column index falls in the normalized `[c1:c2]` is overwritten with `v`. -/
def sliceAssign (img : List (List α)) (r1 r2 c1 c2 : ℤ) (v : α) : List (List α) :=
  mapWithIdx (fun i row =>
    if inSlice img.length r1 r2 i then
      mapWithIdx (fun j p => if inSlice row.length c1 c2 j then v else p) 0 row
    else row) 0 img

/-- `PascalVOC.draw_bbox` acting on the pixel grid: denormalize the box
against the image's height and width, copy the image, and paint the four
border strips.  The four assignments of the source are applied in
order. -/
def drawBboxImg (img : List (List α)) (bbox : ℚ × ℚ × ℚ × ℚ) (color : α)
    (lineWidth : ℤ) : List (List α) :=
  let h : ℤ := img.length
  let w : ℤ := (img.headD []).length
  let xmin := pyRound (bbox.1 * w)
  let ymin := pyRound (bbox.2.1 * h)
  let xmax := pyRound (bbox.2.2.1 * w)
  let ymax := pyRound (bbox.2.2.2 * h)
  let i1 := sliceAssign img (ymin - lineWidth) ymin (xmin - lineWidth) (xmax + lineWidth) color
  let i2 := sliceAssign i1 ymax (ymax + lineWidth) (xmin - lineWidth) (xmax + lineWidth) color
  let i3 := sliceAssign i2 (ymin - lineWidth) (ymax + lineWidth) (xmin - lineWidth) xmin color
  sliceAssign i3 (ymin - lineWidth) (ymax + lineWidth) xmax (xmax + lineWidth) color

/-- The border region painted by `draw_bbox` on an `h × w` image: the
union of the four slice rectangles (top strip, bottom strip, left strip,
right strip), each normalized with Python slice semantics. -/
def borderCell (h w : Nat) (bbox : ℚ × ℚ × ℚ × ℚ) (lw : ℤ) (i j : Nat) : Bool :=
  let xmin := pyRound (bbox.1 * w)
  let ymin := pyRound (bbox.2.1 * h)
  let xmax := pyRound (bbox.2.2.1 * w)
  let ymax := pyRound (bbox.2.2.2 * h)
  (inSlice h (ymin - lw) ymin i && inSlice w (xmin - lw) (xmax + lw) j) ||
  (inSlice h ymax (ymax + lw) i && inSlice w (xmin - lw) (xmax + lw) j) ||
  (inSlice h (ymin - lw) (ymax + lw) i && inSlice w (xmin - lw) xmin j) ||
  (inSlice h (ymin - lw) (ymax + lw) i && inSlice w xmax (xmax + lw) j)

/-- Cell access on a list-of-rows image. -/
def cellGet (img : List (List α)) (i j : Nat) : Option α :=
  (img.get? i).bind (fun row => row.get? j)

/-- A reference store of image buffers: `np.copy` allocates a fresh
buffer, so `draw_bbox` is modelled as appending the painted copy to the
store and returning its reference, while the caller's buffer keeps its
reference and contents. -/
def drawBboxStore (store : List (List (List α))) (ref : Nat)
    (bbox : ℚ × ℚ × ℚ × ℚ) (color : α) (lineWidth : ℤ) :
    List (List (List α)) × Nat :=
  let img := store.getD ref []
  (store ++ [drawBboxImg img bbox color lineWidth], store.length)

section ClassBboxLemmas

theorem collectObjs_error_only (w h : ℚ) (objs : List VocObject) (clses : List ℚ)
    (pairs : List (Nat × List ℚ)) (e : VocError)
    (herr : collectObjs w h objs clses pairs = .error e) : e = .unknownLabel := by
  induction objs generalizing clses pairs with
  | nil => simp [collectObjs] at herr
  | cons o rest ih =>
    simp only [collectObjs] at herr
    cases hidx : label2idx o.name with
    | none =>
      rw [hidx] at herr
      injection herr with herr
      exact herr.symm
    | some idx =>
      rw [hidx] at herr
      exact ih _ _ herr

theorem mem_bucket_iff (pairs : List (Nat × List ℚ)) (k : Nat) (row : List ℚ) :
    row ∈ bucket pairs k ↔ (k, row) ∈ pairs := by
  unfold bucket
  rw [List.mem_map]
  constructor
  · rintro ⟨p, hp, hrow⟩
    have hf := List.mem_filter.mp hp
    have hk : p.1 = k := by simpa using hf.2
    have hpk : p = (k, row) := by
      cases p
      simp only at hk hrow
      simp [hk, hrow]
    exact hpk ▸ hf.1
  · intro hmem
    exact ⟨(k, row), List.mem_filter.mpr ⟨hmem, by simp⟩, rfl⟩

end ClassBboxLemmas

section ClassBboxMain

/-- Unfolding of a successful `getClassBboxRec`: the presence vector is
the one accumulated by the object walk and row `k` of the matrix is the
`rand`-chosen element of bucket `k` (zeros when the bucket is empty). -/
theorem getClassBboxRec_ok (rec : AnnRecord) (rand : Nat → Nat → Nat)
    (cl : List ℚ) (bb : List (List ℚ))
    (hok : getClassBboxRec rec rand = .ok (cl, bb)) :
    ∃ pairs, collectObjs rec.width rec.height rec.objList
        (List.replicate labels.length 0) [] = .ok (cl, pairs) ∧
      bb = (List.range labels.length).map (fun k =>
        let v := bucket pairs k
        if v.isEmpty then zeroRow else v.getD (rand k v.length) zeroRow) := by
  unfold getClassBboxRec at hok
  cases hc : collectObjs rec.width rec.height rec.objList (List.replicate labels.length 0) [] with
  | error e => rw [hc] at hok; cases hok
  | ok p =>
    cases p with
    | mk clses pairs =>
      rw [hc] at hok
      injection hok with hok
      injection hok with h1 h2
      exact ⟨pairs, by rw [h1], h2.symm⟩

/-- The pairs accumulated on a successful run have exactly the class
indices of the record's objects, paired with their normalized boxes. -/
theorem collectObjs_pairs_mem (rec : AnnRecord) (cl : List ℚ)
    (pairs : List (Nat × List ℚ))
    (hok : collectObjs rec.width rec.height rec.objList
        (List.replicate labels.length 0) [] = .ok (cl, pairs))
    (k : Nat) (row : List ℚ) :
    ((k, row) ∈ pairs ↔
      ∃ o ∈ rec.objList, label2idx o.name = some k ∧
        row = normalizeBbox o.bndbox rec.width rec.height) := by
  have ⟨hall, hp⟩ := collectObjs_ok _ _ _ _ _ _ _ hok
  subst hp
  simp only [List.nil_append, List.mem_map]
  constructor
  · rintro ⟨o, ho, heq⟩
    have hsome := hall o ho
    cases hidx : label2idx o.name with
    | none => rw [hidx] at hsome; cases hsome
    | some j =>
      rw [hidx] at heq
      simp only [Option.getD_some] at heq
      injection heq with he1 he2
      exact ⟨o, ho, by rw [hidx, he1], he2.symm⟩
  · rintro ⟨o, ho, hidx, hrow⟩
    exact ⟨o, ho, by rw [hidx]; simp [hrow]⟩

/-- Bucket `k` is empty exactly when class `k` is absent from the
record (on a successful run). -/
theorem bucket_empty_iff (rec : AnnRecord) (cl : List ℚ)
    (pairs : List (Nat × List ℚ))
    (hok : collectObjs rec.width rec.height rec.objList
        (List.replicate labels.length 0) [] = .ok (cl, pairs)) (k : Nat) :
    (bucket pairs k = [] ↔ ¬ classPresent rec k) := by
  constructor
  · intro hempty hpres
    rcases hpres with ⟨o, ho, hidx⟩
    have : normalizeBbox o.bndbox rec.width rec.height ∈ bucket pairs k := by
      rw [mem_bucket_iff, collectObjs_pairs_mem rec cl pairs hok]
      exact ⟨o, ho, hidx, rfl⟩
    rw [hempty] at this
    cases this
  · intro habs
    cases hb : bucket pairs k with
    | nil => rfl
    | cons r rest =>
      exfalso
      have : r ∈ bucket pairs k := by rw [hb]; exact List.mem_cons_self r rest
      rw [mem_bucket_iff, collectObjs_pairs_mem rec cl pairs hok] at this
      rcases this with ⟨o, ho, hidx, _⟩
      exact habs ⟨o, ho, hidx⟩

end ClassBboxMain

/-- Whether every object of a record has positive image dimensions and a
box inside `[0,width] × [0,height]` with at least one nonzero
coordinate. -/
def wellFormedBoxes (rec : AnnRecord) : Prop :=
  0 < rec.width ∧ 0 < rec.height ∧
  ∀ o ∈ rec.objList,
    (0 ≤ o.bndbox.xmin ∧ o.bndbox.xmin ≤ rec.width) ∧
    (0 ≤ o.bndbox.ymin ∧ o.bndbox.ymin ≤ rec.height) ∧
    (0 ≤ o.bndbox.xmax ∧ o.bndbox.xmax ≤ rec.width) ∧
    (0 ≤ o.bndbox.ymax ∧ o.bndbox.ymax ≤ rec.height) ∧
    ¬ (o.bndbox.xmin = 0 ∧ o.bndbox.ymin = 0 ∧ o.bndbox.xmax = 0 ∧ o.bndbox.ymax = 0)

/-- C1 (amended).  For every annotation record on which `get_class_bbox`
returns a pair, and every admissible draw of the per-class random
choice: a class absent from the record has presence flag 0 and an
all-zero bbox row; a class present has presence flag 1 and a bbox row
equal to one of that class's ground-truth boxes normalized by the image
dimensions.  Moreover, provided the image dimensions are positive and
every object's box lies within `[0,width] × [0,height]` with at least one
nonzero coordinate, every present class's row lies within `[0,1]^4` and
is not all-zero.  (Without that proviso the rows of present classes need
not lie in the unit cube nor be nonzero: `_normalize_bbox` does not
clamp, see the counterexample.) -/
theorem C1_class_bbox_invariant (rec : AnnRecord) (rand : Nat → Nat → Nat)
    (cl : List ℚ) (bb : List (List ℚ))
    (hrand : ∀ k n, 0 < n → rand k n < n)
    (hok : getClassBboxRec rec rand = .ok (cl, bb))
    (i : Nat) (hi : i < labels.length) :
    (¬ classPresent rec i → cl.get? i = some 0 ∧ bb.get? i = some zeroRow) ∧
    (classPresent rec i →
      cl.get? i = some 1 ∧
      ∃ o ∈ rec.objList, label2idx o.name = some i ∧
        bb.get? i = some (normalizeBbox o.bndbox rec.width rec.height)) ∧
    (wellFormedBoxes rec → classPresent rec i →
      ∀ row, bb.get? i = some row → (∀ q ∈ row, 0 ≤ q ∧ q ≤ 1) ∧ row ≠ zeroRow) := by
  obtain ⟨pairs, hc, hbb⟩ := getClassBboxRec_ok rec rand cl bb hok
  have hcl := collectObjs_clses rec.width rec.height rec.objList
    (List.replicate labels.length 0) [] cl pairs hc i
  have hbbi : bb.get? i = some (
      let v := bucket pairs i
      if v.isEmpty then zeroRow else v.getD (rand i v.length) zeroRow) := by
    rw [hbb, List.get?_map, List.get?_range hi]
    rfl
  have hrow_present : classPresent rec i →
      ∃ o ∈ rec.objList, label2idx o.name = some i ∧
        bb.get? i = some (normalizeBbox o.bndbox rec.width rec.height) := by
    intro hpres
    have hne : bucket pairs i ≠ [] := by
      intro hempty
      exact (bucket_empty_iff rec cl pairs hc i).mp hempty hpres
    have hlen : 0 < (bucket pairs i).length := List.length_pos.mpr hne
    have hlt := hrand i (bucket pairs i).length hlen
    cases hget : (bucket pairs i).get? (rand i (bucket pairs i).length) with
    | none =>
      exfalso
      rw [List.get?_eq_none] at hget
      omega
    | some row =>
      have hmem : row ∈ bucket pairs i := List.get?_mem hget
      rw [mem_bucket_iff, collectObjs_pairs_mem rec cl pairs hc] at hmem
      rcases hmem with ⟨o, ho, hidx, hrow⟩
      refine ⟨o, ho, hidx, ?_⟩
      rw [hbbi]
      have hnb : (bucket pairs i).isEmpty = false := by
        cases hbk : (bucket pairs i).isEmpty with
        | false => rfl
        | true => exact absurd (List.isEmpty_iff.mp hbk) hne
      simp only [hnb, Bool.false_eq_true, if_false]
      rw [List.getD_eq_get?, hget]
      simp [hrow]
  refine ⟨?_, ?_, ?_⟩
  · intro habs
    constructor
    · rw [hcl.2.1 habs]
      simp [List.get?_eq_getElem?, List.getElem?_replicate, hi]
    · rw [hbbi]
      have hempty : bucket pairs i = [] := (bucket_empty_iff rec cl pairs hc i).mpr habs
      simp [hempty]
  · intro hpres
    constructor
    · exact hcl.1 hpres (by simpa using hi)
    · exact hrow_present hpres
  · intro hwf hpres row hrow
    obtain ⟨o, ho, _, hro⟩ := hrow_present hpres
    rw [hro] at hrow
    injection hrow with hrow
    obtain ⟨hw, hh, hobj⟩ := hwf
    obtain ⟨hx1, hy1, hx2, hy2, hnz⟩ := hobj o ho
    subst hrow
    constructor
    · intro q hq
      simp only [normalizeBbox, List.mem_cons, List.not_mem_nil, or_false] at hq
      rcases hq with hq | hq | hq | hq
      · exact hq ▸ ⟨div_nonneg hx1.1 hw.le, (div_le_one hw).mpr hx1.2⟩
      · exact hq ▸ ⟨div_nonneg hy1.1 hh.le, (div_le_one hh).mpr hy1.2⟩
      · exact hq ▸ ⟨div_nonneg hx2.1 hw.le, (div_le_one hw).mpr hx2.2⟩
      · exact hq ▸ ⟨div_nonneg hy2.1 hh.le, (div_le_one hh).mpr hy2.2⟩
    · intro hzero
      unfold normalizeBbox at hzero
      unfold zeroRow at hzero
      injection hzero with e1 hzero
      injection hzero with e2 hzero
      injection hzero with e3 hzero
      injection hzero with e4 _
      rw [div_eq_zero_iff] at e1 e2 e3 e4
      exact hnz ⟨e1.resolve_right hw.ne', e2.resolve_right hh.ne',
        e3.resolve_right hw.ne', e4.resolve_right hh.ne'⟩

/-- A fixed admissible random source (always draws bucket index 0). -/
def randZero : Nat → Nat → Nat := fun _ _ => 0

/-- A record with a degenerate `(0,0,0,0)` box for `person` and an
out-of-range box for `bird` on a 10×10 image. -/
def recC1X : AnnRecord :=
  ⟨10, 10, .many [⟨"person", ⟨0, 0, 0, 0⟩⟩, ⟨"bird", ⟨0, 0, 30, 10⟩⟩]⟩

/-- The pair `get_class_bbox` computes on `recC1X` under `randZero`. -/
def clbbC1X : List ℚ × List (List ℚ) :=
  match getClassBboxRec recC1X randZero with
  | .ok p => p
  | .error _ => ([], [])

/-- C1, counterexample to the claim as stated: on `recC1X`,
`get_class_bbox` succeeds and both `person` (index 0) and `bird`
(index 1) are present, yet the `person` bbox row is all-zero and the
`bird` row contains the entry `3 ∉ [0,1]` — the rows of present classes
need not be nonzero nor lie in `[0,1]^4`. -/
theorem C1_counterexample :
    getClassBboxRec recC1X randZero = .ok (clbbC1X.1, clbbC1X.2) ∧
    classPresent recC1X 0 ∧ classPresent recC1X 1 ∧
    clbbC1X.1.get? 0 = some 1 ∧
    clbbC1X.2.get? 0 = some zeroRow ∧
    clbbC1X.2.get? 1 = some [0, 0, 3, 1] ∧
    ¬ ((3 : ℚ) ≤ 1) := by
  refine ⟨rfl, by decide, by decide, rfl, ?_, ?_, by norm_num⟩
  · norm_num [clbbC1X, recC1X, getClassBboxRec, collectObjs, AnnRecord.objList,
      label2idx, label2idxAux, labels, normalizeBbox, bucket, zeroRow, randZero]
    decide
  · norm_num [clbbC1X, recC1X, getClassBboxRec, collectObjs, AnnRecord.objList,
      label2idx, label2idxAux, labels, normalizeBbox, bucket, zeroRow, randZero]
    decide

/-- A well-formed single-object record: one `cat` box on a 10×10 image. -/
def recC1W : AnnRecord := ⟨10, 10, .one ⟨"cat", ⟨1, 2, 3, 4⟩⟩⟩

/-- The pair `get_class_bbox` computes on `recC1W` under `randZero`. -/
def clbbC1W : List ℚ × List (List ℚ) :=
  match getClassBboxRec recC1W randZero with
  | .ok p => p
  | .error _ => ([], [])

/-- C1, witness: the amended invariant theorem applied to the concrete
record `recC1W`, discharging its hypotheses there. -/
theorem C1_witness :
    (¬ classPresent recC1W 2 →
      clbbC1W.1.get? 2 = some 0 ∧ clbbC1W.2.get? 2 = some zeroRow) ∧
    (classPresent recC1W 2 →
      clbbC1W.1.get? 2 = some 1 ∧
      ∃ o ∈ recC1W.objList, label2idx o.name = some 2 ∧
        clbbC1W.2.get? 2 = some (normalizeBbox o.bndbox recC1W.width recC1W.height)) ∧
    (wellFormedBoxes recC1W → classPresent recC1W 2 →
      ∀ row, clbbC1W.2.get? 2 = some row →
        (∀ q ∈ row, 0 ≤ q ∧ q ≤ 1) ∧ row ≠ zeroRow) :=
  C1_class_bbox_invariant recC1W randZero clbbC1W.1 clbbC1W.2
    (fun _ _ hn => hn) rfl 2 (by decide)

/-- C8.  With the annotation record of `id` decoded as `rec`,
`get_class_bbox` fails with `UnknownLabel` exactly when some object of
the record has a class name outside the 20-label vocabulary; the same
holds for the per-item resolution of `load_annotations`, so the error
propagates to the caller.  In particular a record whose names are all in
the vocabulary never produces this failure. -/
theorem C8_unknown_label {Img : Type} (env : Env Img) (id : String) (rec : AnnRecord)
    (hrec : env.annots id = some rec) :
    (getClassBbox env id = .error .unknownLabel ↔
      ∃ o ∈ rec.objList, label2idx o.name = none) ∧
    (resolveAnnot env id = .error .unknownLabel ↔
      ∃ o ∈ rec.objList, label2idx o.name = none) := by
  have hg : getClassBbox env id = getClassBboxRec rec env.rand := by
    unfold getClassBbox
    rw [hrec]
  have hmain : getClassBboxRec rec env.rand = .error .unknownLabel ↔
      ∃ o ∈ rec.objList, label2idx o.name = none := by
    unfold getClassBboxRec
    cases hc : collectObjs rec.width rec.height rec.objList
        (List.replicate labels.length 0) [] with
    | error e =>
      have he := collectObjs_error_only _ _ _ _ _ e hc
      subst he
      simp only [Except.error.injEq, true_iff, iff_true]
      exact (collectObjs_error_iff _ _ _ _ _).mp hc
    | ok p =>
      cases p with
      | mk clses pairs =>
        constructor
        · intro hcontra
          cases hcontra
        · intro hex
          have := (collectObjs_error_iff rec.width rec.height rec.objList
            (List.replicate labels.length 0) []).mpr hex
          rw [hc] at this
          cases this
  refine ⟨by rw [hg]; exact hmain, ?_⟩
  unfold resolveAnnot
  rw [hg]
  cases hr : getClassBboxRec rec env.rand with
  | error e =>
    rw [hr] at hmain
    simpa using hmain
  | ok p =>
    cases p with
    | mk c b =>
      constructor
      · intro hcontra
        cases hcontra
      · intro hex
        have hcontra := hmain.mpr hex
        rw [hr] at hcontra
        cases hcontra

/-- An environment whose annotation store returns, for every identifier,
a record containing an object with the out-of-vocabulary name
`"zebra"`. -/
def envC8 : Env Nat :=
  ⟨fun _ => some 0, fun _ => some ⟨1, 1, .one ⟨"zebra", ⟨0, 0, 1, 1⟩⟩⟩, randZero⟩

/-- C8, witness: the theorem applied to the concrete environment
`envC8`, whose record indeed makes `get_class_bbox` fail with
`UnknownLabel`. -/
theorem C8_witness :
    (getClassBbox envC8 "img1" = .error .unknownLabel ↔
      ∃ o ∈ (AnnRecord.objList ⟨1, 1, .one ⟨"zebra", ⟨0, 0, 1, 1⟩⟩⟩),
        label2idx o.name = none) ∧
    (resolveAnnot envC8 "img1" = .error .unknownLabel ↔
      ∃ o ∈ (AnnRecord.objList ⟨1, 1, .one ⟨"zebra", ⟨0, 0, 1, 1⟩⟩⟩),
        label2idx o.name = none) :=
  C8_unknown_label envC8 "img1" ⟨1, 1, .one ⟨"zebra", ⟨0, 0, 1, 1⟩⟩⟩ rfl

/-- C2 (amended).  A sequential (`random=false`) call with a valid mode
operates on the contiguous row slice `[cur, cur+size)` of the selected
manifest, where `cur` is 0 when `reset=true` and the stored cursor
otherwise; the slice is not re-wrapped; afterwards the cursor holds
`cur+size`, except that it is reset to 0 when `cur+size` reaches or
exceeds `X.size` — pandas' ELEMENT count (rows × columns), which equals
the manifest length N only for a single-column manifest file.  The
manifests themselves are unchanged. -/
theorem C2_sequential_cursor (voc : PascalVOC) (size : Nat) (reset : Bool)
    (mode : String) (sel : List Nat) (X : Pdf)
    (hmode : mode = "single" ∨ mode = "multi")
    (hX : X = if mode = "single" then voc.train_singleobj else voc.train_multiobj) :
    (selectMinibatch voc size false reset mode sel).1 =
      .ok (X.slice (if reset then 0 else voc.mb_idx)
        ((if reset then 0 else voc.mb_idx) + size)) ∧
    (selectMinibatch voc size false reset mode sel).2 =
      { voc with mb_idx :=
          if X.size ≤ (if reset then 0 else voc.mb_idx) + size then 0
          else (if reset then 0 else voc.mb_idx) + size } := by
  rcases hmode with hm | hm <;>
    subst hm <;>
    simp only [selectMinibatch, seqStep] <;>
    simp [hX]

/-- A two-column manifest of two rows (as produced by `read_csv` on a
file whose lines carry an identifier and one extra field). -/
def vocC2X : PascalVOC := ⟨⟨[["a", "x"], ["b", "y"]]⟩, ⟨[]⟩, ⟨[]⟩, 0⟩

/-- C2, counterexample to the claim as stated: the two-column manifest
has N = 2 rows; a sequential draw of size 2 advances the cursor to
2 ≥ N, yet the cursor is NOT reset to 0 (the code compares against
`DataFrame.size` = 4, the element count). -/
theorem C2_counterexample :
    vocC2X.train_singleobj.rows.length = 2 ∧
    (selectMinibatch vocC2X 2 false false "single" []).2.mb_idx = 2 ∧
    ((2 : Nat) ≠ 0) := by decide

/-- A single-column manifest of three rows. -/
def vocSeqW : PascalVOC := ⟨⟨[["a"], ["b"], ["c"]]⟩, ⟨[]⟩, ⟨[]⟩, 0⟩

/-- C2, witness: the amended theorem applied to a concrete sequential
call on a single-column manifest. -/
theorem C2_witness :
    (selectMinibatch vocSeqW 2 false false "single" []).1 =
      .ok (vocSeqW.train_singleobj.slice (if false then 0 else vocSeqW.mb_idx)
        ((if false then 0 else vocSeqW.mb_idx) + 2)) ∧
    (selectMinibatch vocSeqW 2 false false "single" []).2 =
      { vocSeqW with mb_idx :=
          if vocSeqW.train_singleobj.size ≤ (if false then 0 else vocSeqW.mb_idx) + 2 then 0
          else (if false then 0 else vocSeqW.mb_idx) + 2 } :=
  C2_sequential_cursor vocSeqW 2 false "single" [] vocSeqW.train_singleobj
    (Or.inl rfl) (by decide)

/-- C10.  For every mode outside `{'single', 'multi'}` and every choice
of the other arguments and of the collaborator environment,
`next_image_minibatch` fails on the leading assertion: the result is
`assertionError` and the returned dataset state is the input state
unchanged (in particular the cursor is untouched, no manifest is
selected, and the result does not depend on the environment). -/
theorem C10_mode_assert {Img : Type} (env : Env Img) (voc : PascalVOC)
    (size : Nat) (random reset : Bool) (mode : String) (sel : List Nat)
    (hmode : mode ≠ "single" ∧ mode ≠ "multi") :
    nextImageMinibatch env voc size random reset mode sel =
      (.error .assertionError, voc) ∧
    selectMinibatch voc size random reset mode sel =
      (.error .assertionError, voc) := by
  have hsel : selectMinibatch voc size random reset mode sel =
      (.error .assertionError, voc) := by
    unfold selectMinibatch
    simp [hmode.1, hmode.2]
  refine ⟨?_, hsel⟩
  unfold nextImageMinibatch
  rw [hsel]

/-- C10, witness: a concrete call with the invalid mode `"both"` fails
the assertion and leaves the state (cursor 0) unchanged. -/
theorem C10_witness :
    nextImageMinibatch envC8 vocSeqW 2 true false "both" [] =
      (.error .assertionError, vocSeqW) ∧
    selectMinibatch vocSeqW 2 true false "both" [] =
      (.error .assertionError, vocSeqW) :=
  C10_mode_assert envC8 vocSeqW 2 true false "both" [] (by decide)

section SampleLemmas

theorem sampleRows_col0 (d : Pdf) (sel : List Nat) :
    (d.sampleRows sel).col0 = sel.filterMap (fun i => d.col0.get? i) := by
  unfold Pdf.sampleRows Pdf.col0
  rw [List.map_filterMap]
  congr 1
  funext i
  rw [List.get?_map]

theorem filterMap_get?_length (L : List α) (sel : List Nat)
    (h : ∀ i ∈ sel, i < L.length) :
    (sel.filterMap (fun i => L.get? i)).length = sel.length := by
  induction sel with
  | nil => rfl
  | cons i rest ih =>
    have hi : i < L.length := h i (List.mem_cons_self i rest)
    cases hg : L.get? i with
    | none =>
      rw [List.get?_eq_none] at hg
      omega
    | some a =>
      simp only [List.filterMap_cons, hg, List.length_cons]
      rw [ih (fun j hj => h j (List.mem_cons_of_mem _ hj))]

theorem mem_filterMap_get? (L : List α) (sel : List Nat) (a : α)
    (h : a ∈ sel.filterMap (fun i => L.get? i)) : a ∈ L := by
  rw [List.mem_filterMap] at h
  rcases h with ⟨i, _, hg⟩
  exact List.get?_mem hg

theorem nodup_filterMap_get? (L : List α) (sel : List Nat)
    (hsel : sel.Nodup) (hL : L.Nodup) :
    (sel.filterMap (fun i => L.get? i)).Nodup := by
  refine List.Nodup.filterMap ?_ hsel
  intro i j a hai haj
  have hi : i < L.length := by
    rcases List.get?_eq_some.mp hai with ⟨hlt, _⟩
    exact hlt
  exact List.get?_inj hi hL (hai.trans haj.symm)

theorem length_le_of_nodup_lt (sel : List Nat) (n : Nat)
    (hnd : sel.Nodup) (hlt : ∀ i ∈ sel, i < n) : sel.length ≤ n := by
  have hsub : sel.toFinset ⊆ Finset.range n := by
    intro i hi
    rw [Finset.mem_range]
    exact hlt i (List.mem_toFinset.mp hi)
  have := Finset.card_le_card hsub
  rw [List.toFinset_card_of_nodup hnd, Finset.card_range] at this
  exact this

end SampleLemmas

/-- C5 (amended).  A `random=true` call of size `k` with a valid mode,
for every draw `sel` of `k` distinct in-range row positions (the
possible outcomes of `X.sample(k)`, which requires `k ≤ N`): the batch
is the rows at those positions, the dataset state — in particular the
cursor — is left unchanged, the batch has exactly `k` identifiers, every
one of them belongs to the selected manifest, and they are pairwise
distinct provided the manifest's identifiers are pairwise distinct.
(Without that proviso a manifest with duplicate identifiers yields a
batch with repeated identifiers, see the counterexample.) -/
theorem C5_random_minibatch (voc : PascalVOC) (k : Nat) (reset : Bool)
    (mode : String) (sel : List Nat) (X : Pdf)
    (hmode : mode = "single" ∨ mode = "multi")
    (hX : X = if mode = "single" then voc.train_singleobj else voc.train_multiobj)
    (hnd : sel.Nodup) (hlen : sel.length = k)
    (hrange : ∀ i ∈ sel, i < X.rows.length) :
    (selectMinibatch voc k true reset mode sel).1 = .ok (X.sampleRows sel) ∧
    (selectMinibatch voc k true reset mode sel).2 = voc ∧
    (X.sampleRows sel).col0.length = k ∧
    (∀ id ∈ (X.sampleRows sel).col0, id ∈ X.col0) ∧
    (X.col0.Nodup → (X.sampleRows sel).col0.Nodup) := by
  have hcol : X.col0.length = X.rows.length := by
    unfold Pdf.col0
    rw [List.length_map]
  have hkN : k ≤ X.rows.length := by
    rw [← hlen]
    exact length_le_of_nodup_lt sel X.rows.length hnd hrange
  have hrange2 : ∀ i ∈ sel, i < X.col0.length := by
    rw [hcol]
    exact hrange
  have hsel_eq : selectMinibatch voc k true reset mode sel =
      (.ok (X.sampleRows sel), voc) := by
    rcases hmode with hm | hm
    · subst hm
      simp only [if_pos] at hX
      subst hX
      unfold selectMinibatch
      simp [hkN]
    · subst hm
      simp at hX
      subst hX
      unfold selectMinibatch
      simp [hkN]
  refine ⟨by rw [hsel_eq], by rw [hsel_eq], ?_, ?_, ?_⟩
  · rw [sampleRows_col0, filterMap_get?_length X.col0 sel hrange2, hlen]
  · intro id hid
    rw [sampleRows_col0] at hid
    exact mem_filterMap_get? X.col0 sel id hid
  · intro hnodup
    rw [sampleRows_col0]
    exact nodup_filterMap_get? X.col0 sel hnd hnodup

/-- A manifest whose two rows carry the same identifier `"a"`. -/
def vocC5X : PascalVOC := ⟨⟨[["a"], ["a"]]⟩, ⟨[]⟩, ⟨[]⟩, 0⟩

/-- C5, counterexample to the claim as stated: sampling both rows of a
duplicate-identifier manifest (`k = 2 ≤ N = 2`, positions `[0, 1]`
distinct and in range) yields the batch `["a", "a"]`, which contains
only one distinct identifier, not `k = 2`. -/
theorem C5_counterexample :
    (selectMinibatch vocC5X 2 true false "single" [0, 1]).1 =
      .ok ⟨[["a"], ["a"]]⟩ ∧
    ([0, 1] : List Nat).Nodup ∧
    ([0, 1] : List Nat).length = 2 ∧
    (∀ i ∈ ([0, 1] : List Nat), i < vocC5X.train_singleobj.rows.length) ∧
    (Pdf.col0 ⟨[["a"], ["a"]]⟩) = ["a", "a"] ∧
    ¬ (Pdf.col0 ⟨[["a"], ["a"]]⟩).Nodup := by decide

/-- C5, witness: the amended theorem applied to a concrete draw of two
distinct positions from a three-row manifest with distinct
identifiers. -/
theorem C5_witness :
    (selectMinibatch vocSeqW 2 true false "single" [2, 0]).1 =
      .ok (vocSeqW.train_singleobj.sampleRows [2, 0]) ∧
    (selectMinibatch vocSeqW 2 true false "single" [2, 0]).2 = vocSeqW ∧
    (vocSeqW.train_singleobj.sampleRows [2, 0]).col0.length = 2 ∧
    (∀ id ∈ (vocSeqW.train_singleobj.sampleRows [2, 0]).col0,
      id ∈ vocSeqW.train_singleobj.col0) ∧
    (vocSeqW.train_singleobj.col0.Nodup →
      (vocSeqW.train_singleobj.sampleRows [2, 0]).col0.Nodup) :=
  C5_random_minibatch vocSeqW 2 false "single" [2, 0] vocSeqW.train_singleobj
    (Or.inl rfl) (by decide) (by decide) (by decide) (by decide)

section SeqCoverage

/-- A manifest file with exactly one whitespace-delimited column (one
identifier per row and nothing else). -/
def singleCol (d : Pdf) : Prop := ∀ r ∈ d.rows, r.length = 1

instance (d : Pdf) : Decidable (singleCol d) := by
  unfold singleCol; infer_instance

theorem sum_lengths_singleCol (rows : List (List String))
    (h : ∀ r ∈ rows, r.length = 1) :
    (rows.map List.length).sum = rows.length := by
  induction rows with
  | nil => rfl
  | cons r rest ih =>
    simp only [List.map_cons, List.sum_cons, List.length_cons]
    rw [h r (List.mem_cons_self r rest),
      ih (fun r2 hr2 => h r2 (List.mem_cons_of_mem _ hr2))]
    omega

/-- For a single-column manifest, pandas' element count coincides with
the row count. -/
theorem size_of_singleCol (d : Pdf) (h : singleCol d) : d.size = d.rows.length :=
  sum_lengths_singleCol d.rows h

theorem slice_col0 (d : Pdf) (a b : Nat) :
    (d.slice a b).col0 = (d.col0.take b).drop a := by
  unfold Pdf.slice Pdf.col0
  rw [List.map_drop, List.map_take]

theorem join_slices (L : List α) (s : Nat) (hs : 0 < s) :
    ∀ (k : Nat), L.length ≤ k * s →
      ((List.range k).map (fun t => (L.take (t * s + s)).drop (t * s))).join = L := by
  intro k
  induction k generalizing L with
  | zero =>
    intro hlen
    have h0 : L.length = 0 := by omega
    simp [List.length_eq_zero.mp h0]
  | succ k ih =>
    intro hlen
    rw [List.range_succ_eq_map, List.map_cons]
    have hshift : ∀ t ∈ List.range k,
        ((fun t => (L.take (t * s + s)).drop (t * s)) ∘ Nat.succ) t =
        (fun t => ((L.drop s).take (t * s + s)).drop (t * s)) t := by
      intro t _
      simp only [Function.comp_apply, Nat.succ_eq_add_one]
      rw [List.drop_take, List.drop_take, List.drop_drop]
      have h1 : (t + 1) * s + s - (t + 1) * s = s := by omega
      have h2 : t * s + s - t * s = s := by omega
      rw [h1, h2]
      have h3 : (t + 1) * s = s + t * s := by ring
      rw [h3]
    rw [List.map_map, List.map_congr_left hshift]
    have hlen2 : (L.drop s).length ≤ k * s := by
      rw [List.length_drop]
      have hk1 : (k + 1) * s = k * s + s := by ring
      omega
    have hih := ih (L.drop s) hlen2
    simp only [List.join] at hih ⊢
    rw [List.flatten_cons, hih]
    simp only [Nat.zero_mul, Nat.zero_add, List.drop_zero]
    exact List.take_append_drop s L

/-- One sequential, non-reset step of `next_image_minibatch`'s selection
part, on a valid mode. -/
theorem selectMinibatch_seq_run (voc : PascalVOC) (s : Nat) (mode : String) (X : Pdf)
    (hmode : mode = "single" ∨ mode = "multi")
    (hX : (if mode = "single" then voc.train_singleobj else voc.train_multiobj) = X) :
    selectMinibatch voc s false false mode [] =
      (.ok (X.slice voc.mb_idx (voc.mb_idx + s)),
       { voc with mb_idx := if X.size ≤ voc.mb_idx + s then 0 else voc.mb_idx + s }) := by
  rcases hmode with hm | hm
  · subst hm
    simp only [if_pos] at hX
    subst hX
    unfold selectMinibatch
    simp [seqStep]
  · subst hm
    simp at hX
    subst hX
    unfold selectMinibatch
    simp [seqStep]

/-- Unfolding `iterateSeq` from the back: `j+1` calls are `j` calls
followed by one more on the resulting state. -/
theorem iterateSeq_succ_back (s : Nat) (mode : String) (voc : PascalVOC) (j : Nat) :
    iterateSeq s mode voc (j + 1) =
      ((iterateSeq s mode voc j).1 ++
        (match (selectMinibatch (iterateSeq s mode voc j).2 s false false mode []).1 with
         | .ok mb => [mb]
         | .error _ => []),
       (selectMinibatch (iterateSeq s mode voc j).2 s false false mode []).2) := by
  induction j generalizing voc with
  | zero =>
    show iterateSeq s mode voc 1 = _
    cases hr : (selectMinibatch voc s false false mode []).1 <;>
      simp [iterateSeq, hr]
  | succ j ih =>
    show iterateSeq s mode voc (j + 2) = _
    have hfront : iterateSeq s mode voc (j + 2) =
        ((match (selectMinibatch voc s false false mode []).1 with
          | .ok mb =>
            mb :: (iterateSeq s mode (selectMinibatch voc s false false mode []).2 (j + 1)).1
          | .error _ =>
            (iterateSeq s mode (selectMinibatch voc s false false mode []).2 (j + 1)).1),
         (iterateSeq s mode (selectMinibatch voc s false false mode []).2 (j + 1)).2) := rfl
    have hfront2 : iterateSeq s mode voc (j + 1) =
        ((match (selectMinibatch voc s false false mode []).1 with
          | .ok mb =>
            mb :: (iterateSeq s mode (selectMinibatch voc s false false mode []).2 j).1
          | .error _ =>
            (iterateSeq s mode (selectMinibatch voc s false false mode []).2 j).1),
         (iterateSeq s mode (selectMinibatch voc s false false mode []).2 j).2) := rfl
    rw [hfront, ih ((selectMinibatch voc s false false mode []).2), hfront2]
    cases hr : (selectMinibatch voc s false false mode []).1 <;> simp

end SeqCoverage

/-- As long as the advanced cursor stays strictly below `X.size`, the
sequential calls walk the manifest in consecutive slices of `size` rows
and the cursor advances by `size` each call, never resetting. -/
theorem iterateSeq_no_wrap (s : Nat) (mode : String) (X : Pdf)
    (hmode : mode = "single" ∨ mode = "multi") :
    ∀ (j : Nat) (voc : PascalVOC),
      (if mode = "single" then voc.train_singleobj else voc.train_multiobj) = X →
      voc.mb_idx + j * s < X.size →
      (iterateSeq s mode voc j).2 = { voc with mb_idx := voc.mb_idx + j * s } ∧
      (iterateSeq s mode voc j).1 =
        (List.range j).map
          (fun t => X.slice (voc.mb_idx + t * s) (voc.mb_idx + t * s + s)) := by
  intro j
  induction j with
  | zero =>
    intro voc hX hlt
    refine ⟨?_, ?_⟩ <;> simp [iterateSeq]
  | succ j ih =>
    intro voc hX hlt
    have hsm : (j + 1) * s = j * s + s := Nat.succ_mul j s
    have hnw : ¬ (X.size ≤ voc.mb_idx + s) := by
      rw [hsm] at hlt
      omega
    have hrun := selectMinibatch_seq_run voc s mode X hmode hX
    have hstep : iterateSeq s mode voc (j + 1) =
        ((match (selectMinibatch voc s false false mode []).1 with
          | .ok mb =>
            mb :: (iterateSeq s mode (selectMinibatch voc s false false mode []).2 j).1
          | .error _ =>
            (iterateSeq s mode (selectMinibatch voc s false false mode []).2 j).1),
         (iterateSeq s mode (selectMinibatch voc s false false mode []).2 j).2) := rfl
    rw [hrun] at hstep
    simp only [if_neg hnw] at hstep
    have hX1 : (if mode = "single"
        then ({ voc with mb_idx := voc.mb_idx + s } : PascalVOC).train_singleobj
        else ({ voc with mb_idx := voc.mb_idx + s } : PascalVOC).train_multiobj) = X := by
      rcases hmode with hm | hm <;> subst hm <;> simpa using hX
    have hlt1 : ({ voc with mb_idx := voc.mb_idx + s } : PascalVOC).mb_idx + j * s < X.size := by
      show voc.mb_idx + s + j * s < X.size
      rw [hsm] at hlt
      omega
    obtain ⟨ihs, ihb⟩ := ih { voc with mb_idx := voc.mb_idx + s } hX1 hlt1
    constructor
    · rw [hstep]
      simp only []
      rw [ihs]
      show ({ voc with mb_idx := voc.mb_idx + s + j * s } : PascalVOC) = _
      rw [hsm]
      congr 1
      omega
    · rw [hstep]
      simp only []
      rw [ihb]
      rw [List.range_succ_eq_map, List.map_cons, List.map_map]
      congr 1
      · congr 1 <;> simp
      · apply List.map_congr_left
        intro t _
        simp only [Function.comp_apply, Nat.succ_eq_add_one]
        have htm : (t + 1) * s = t * s + s := Nat.succ_mul t s
        show X.slice (voc.mb_idx + s + t * s) (voc.mb_idx + s + t * s + s) = _
        congr 1 <;> omega

/-- C3 (amended).  On a SINGLE-COLUMN manifest of length N (so that
pandas' `X.size` equals N), starting from cursor 0, `ceil(N/size)`
consecutive sequential `next_image_minibatch` draws of size `size > 0`
yield batches whose identifiers, concatenated in order, are exactly the
manifest's identifier column — every identifier exactly once — while the
cursor stands at `j*size` (never wrapped) after the j-th call for
`j < ceil(N/size)` and is wrapped back to 0 after the final call. -/
theorem C3_sequential_coverage (voc : PascalVOC) (s : Nat) (mode : String)
    (X : Pdf) (k : Nat)
    (hmode : mode = "single" ∨ mode = "multi")
    (hX : (if mode = "single" then voc.train_singleobj else voc.train_multiobj) = X)
    (hs : 0 < s) (h0 : voc.mb_idx = 0) (hsc : singleCol X)
    (hk : k = (X.rows.length + s - 1) / s) :
    (((iterateSeq s mode voc k).1.map Pdf.col0).join = X.col0) ∧
    ((iterateSeq s mode voc k).2.mb_idx = 0) ∧
    (∀ j, j < k → (iterateSeq s mode voc j).2.mb_idx = j * s) := by
  have hsize := size_of_singleCol X hsc
  have hNcol : X.col0.length = X.rows.length := by
    unfold Pdf.col0
    rw [List.length_map]
  cases k with
  | zero =>
    have hN0 : X.rows.length = 0 := by
      by_contra hne
      have hpos : 0 < X.rows.length := Nat.pos_of_ne_zero hne
      have : 0 < (X.rows.length + s - 1) / s := by
        apply Nat.div_pos
        · omega
        · exact hs
      omega
    have hnil : X.col0 = [] := List.length_eq_zero.mp (by rw [hNcol, hN0])
    refine ⟨?_, ?_, ?_⟩
    · simp [iterateSeq, hnil]
    · simp [iterateSeq, h0]
    · intro j hj
      omega
  | succ k1 =>
    have hdm := Nat.div_add_mod (X.rows.length + s - 1) s
    have hmod : (X.rows.length + s - 1) % s < s := Nat.mod_lt _ hs
    have hks : s * (k1 + 1) + (X.rows.length + s - 1) % s = X.rows.length + s - 1 := by
      rw [hk]
      exact hdm
    have hms : s * (k1 + 1) = s * k1 + s := Nat.mul_succ s k1
    have hlast : k1 * s < X.rows.length := by
      have hcm : s * k1 = k1 * s := Nat.mul_comm s k1
      omega
    have hcover : X.rows.length ≤ (k1 + 1) * s := by
      have hcm2 : s * (k1 + 1) = (k1 + 1) * s := Nat.mul_comm s (k1 + 1)
      omega
    have hcursor : ∀ j, j ≤ k1 →
        (iterateSeq s mode voc j).2 = { voc with mb_idx := j * s } ∧
        (iterateSeq s mode voc j).1 =
          (List.range j).map (fun t => X.slice (t * s) (t * s + s)) := by
      intro j hj
      have hjlt : voc.mb_idx + j * s < X.size := by
        rw [hsize, h0]
        have : j * s ≤ k1 * s := Nat.mul_le_mul_right s hj
        omega
      obtain ⟨h1, h2⟩ := iterateSeq_no_wrap s mode X hmode j voc hX hjlt
      refine ⟨by rw [h1, h0]; norm_num, ?_⟩
      rw [h2]
      apply List.map_congr_left
      intro t _
      rw [h0]
      simp
    obtain ⟨hmid2, hmid1⟩ := hcursor k1 (Nat.le_refl k1)
    have hXmid : (if mode = "single"
        then (iterateSeq s mode voc k1).2.train_singleobj
        else (iterateSeq s mode voc k1).2.train_multiobj) = X := by
      rw [hmid2]
      rcases hmode with hm | hm <;> subst hm <;> simpa using hX
    have hrun := selectMinibatch_seq_run (iterateSeq s mode voc k1).2 s mode X hmode hXmid
    have hback := iterateSeq_succ_back s mode voc k1
    rw [hrun] at hback
    have hwrap : X.size ≤ (iterateSeq s mode voc k1).2.mb_idx + s := by
      rw [hmid2]
      show X.size ≤ k1 * s + s
      rw [hsize]
      have hcm3 : (k1 + 1) * s = k1 * s + s := Nat.succ_mul k1 s
      omega
    refine ⟨?_, ?_, ?_⟩
    · rw [hback]
      simp only [List.map_append, List.map_cons, List.map_nil]
      rw [hmid1, hmid2]
      simp only [List.map_map]
      have hjoin : (((List.range k1).map
            (Pdf.col0 ∘ fun t => X.slice (t * s) (t * s + s))) ++
          [(X.slice (k1 * s) (k1 * s + s)).col0]).join =
          ((List.range (k1 + 1)).map
            (fun t => (X.col0.take (t * s + s)).drop (t * s))).join := by
        rw [List.range_succ, List.map_append, List.map_singleton]
        congr 1
        congr 1
        · apply List.map_congr_left
          intro t _
          simp only [Function.comp_apply]
          rw [slice_col0]
        · rw [slice_col0]
      rw [hjoin]
      apply join_slices X.col0 s hs (k1 + 1)
      rw [hNcol]
      exact hcover
    · rw [hback]
      simp only [if_pos hwrap]
    · intro j hj
      have := (hcursor j (by omega)).1
      rw [this]

/-- C3, counterexample to the claim as stated: on the TWO-column
manifest `vocC2X` of N = 2 rows, `ceil(N/size) = 1` draw of size 2 does
cover every identifier exactly once, but the cursor ends at 2, not 0 —
it never wraps back to 0, because the wrap check compares against the
element count 4. -/
theorem C3_counterexample :
    vocC2X.train_singleobj.rows.length = 2 ∧
    (2 + 2 - 1) / 2 = 1 ∧
    (((iterateSeq 2 "single" vocC2X 1).1.map Pdf.col0).join =
      vocC2X.train_singleobj.col0) ∧
    (iterateSeq 2 "single" vocC2X 1).2.mb_idx = 2 ∧
    ((2 : Nat) ≠ 0) := by decide

/-- C3, witness: the amended theorem applied to `ceil(3/2) = 2` draws of
size 2 from a single-column manifest of three identifiers. -/
theorem C3_witness :
    (((iterateSeq 2 "single" vocSeqW 2).1.map Pdf.col0).join =
      vocSeqW.train_singleobj.col0) ∧
    ((iterateSeq 2 "single" vocSeqW 2).2.mb_idx = 0) ∧
    (∀ j, j < 2 → (iterateSeq 2 "single" vocSeqW j).2.mb_idx = j * 2) :=
  C3_sequential_coverage vocSeqW 2 "single" vocSeqW.train_singleobj 2
    (Or.inl rfl) (by decide) (by decide) (by decide) (by decide) (by decide)

section RoundTrip

/-- Python's `round` never moves a value by more than half a unit. -/
theorem pyRound_close (q : ℚ) : |((pyRound q : ℤ) : ℚ) - q| ≤ 1 / 2 := by
  have hfr : (⌊q⌋ : ℚ) = q - Int.fract q := by
    unfold Int.fract
    ring
  have h0 : 0 ≤ Int.fract q := Int.fract_nonneg q
  have h1 : Int.fract q < 1 := Int.fract_lt_one q
  simp only [pyRound]
  split_ifs with ha hb hc <;>
    (refine abs_le.mpr ⟨?_, ?_⟩ <;> push_cast <;> linarith)

end RoundTrip

/-- C4.  For every pixel-space box within `[0, width] × [0, height]`
(width and height positive), normalizing with `_normalize_bbox` and then
denormalizing against the same dimensions the way `draw_bbox` does
(multiply x-values by the width, y-values by the height, round to the
nearest integer) returns each of the four original coordinates within
±1 pixel. -/
theorem C4_round_trip (b : BBoxRaw) (w h : ℚ) (hw : 0 < w) (hh : 0 < h)
    (hin : (0 ≤ b.xmin ∧ b.xmin ≤ w) ∧ (0 ≤ b.ymin ∧ b.ymin ≤ h) ∧
           (0 ≤ b.xmax ∧ b.xmax ≤ w) ∧ (0 ≤ b.ymax ∧ b.ymax ≤ h)) :
    |(((denormBbox (normalizeBbox b w h) w h).getD 0 0 : ℤ) : ℚ) - b.xmin| ≤ 1 ∧
    |(((denormBbox (normalizeBbox b w h) w h).getD 1 0 : ℤ) : ℚ) - b.ymin| ≤ 1 ∧
    |(((denormBbox (normalizeBbox b w h) w h).getD 2 0 : ℤ) : ℚ) - b.xmax| ≤ 1 ∧
    |(((denormBbox (normalizeBbox b w h) w h).getD 3 0 : ℤ) : ℚ) - b.ymax| ≤ 1 := by
  have hwne : w ≠ 0 := hw.ne'
  have hhne : h ≠ 0 := hh.ne'
  refine ⟨?_, ?_, ?_, ?_⟩ <;>
    simp only [denormBbox, normalizeBbox, List.getD_cons_zero, List.getD_cons_succ,
      div_mul_cancel₀ _ hwne, div_mul_cancel₀ _ hhne] <;>
    (have q1 := pyRound_close b.xmin
     have q2 := pyRound_close b.ymin
     have q3 := pyRound_close b.xmax
     have q4 := pyRound_close b.ymax
     linarith)

/-- C4, witness: the round-trip theorem applied to the box (1,2,3,4) on
a 4×8 image. -/
theorem C4_witness :
    |(((denormBbox (normalizeBbox ⟨1, 2, 3, 4⟩ 4 8) 4 8).getD 0 0 : ℤ) : ℚ) -
      (BBoxRaw.xmin ⟨1, 2, 3, 4⟩)| ≤ 1 ∧
    |(((denormBbox (normalizeBbox ⟨1, 2, 3, 4⟩ 4 8) 4 8).getD 1 0 : ℤ) : ℚ) -
      (BBoxRaw.ymin ⟨1, 2, 3, 4⟩)| ≤ 1 ∧
    |(((denormBbox (normalizeBbox ⟨1, 2, 3, 4⟩ 4 8) 4 8).getD 2 0 : ℤ) : ℚ) -
      (BBoxRaw.xmax ⟨1, 2, 3, 4⟩)| ≤ 1 ∧
    |(((denormBbox (normalizeBbox ⟨1, 2, 3, 4⟩ 4 8) 4 8).getD 3 0 : ℤ) : ℚ) -
      (BBoxRaw.ymax ⟨1, 2, 3, 4⟩)| ≤ 1 :=
  C4_round_trip ⟨1, 2, 3, 4⟩ 4 8 (by norm_num) (by norm_num)
    (by refine ⟨⟨?_, ?_⟩, ⟨?_, ?_⟩, ⟨?_, ?_⟩, ⟨?_, ?_⟩⟩ <;> norm_num)

section LoadLemmas

theorem loadImagesM_length {Img : Type} (f : String → Option Img)
    (ids : List String) (imgs : List Img)
    (h : loadImagesM f ids = .ok imgs) : imgs.length = ids.length := by
  induction ids generalizing imgs with
  | nil =>
    simp [loadImagesM] at h
    simp [← h]
  | cons id rest ih =>
    simp only [loadImagesM] at h
    cases hf : f id with
    | none => rw [hf] at h; cases h
    | some img =>
      rw [hf] at h
      cases hr : loadImagesM f rest with
      | error e => rw [hr] at h; cases h
      | ok imgs2 =>
        rw [hr] at h
        injection h with h
        rw [← h, List.length_cons, List.length_cons, ih imgs2 hr]

theorem loadImagesM_ok_iff {Img : Type} (f : String → Option Img) (ids : List String) :
    (∃ imgs, loadImagesM f ids = .ok imgs) ↔ ∀ id ∈ ids, (f id).isSome := by
  induction ids with
  | nil => simp [loadImagesM]
  | cons id rest ih =>
    simp only [loadImagesM]
    cases hf : f id with
    | none =>
      simp only [List.mem_cons]
      constructor
      · rintro ⟨imgs, him⟩
        cases him
      · intro hall
        have := hall id (Or.inl rfl)
        rw [hf] at this
        cases this
    | some img =>
      cases hr : loadImagesM f rest with
      | error e =>
        constructor
        · rintro ⟨imgs, him⟩
          cases him
        · intro hall
          have : ∃ imgs, loadImagesM f rest = .ok imgs :=
            ih.mpr (fun id2 h2 => hall id2 (List.mem_cons_of_mem _ h2))
          rcases this with ⟨imgs, him⟩
          rw [hr] at him
          cases him
      | ok imgs2 =>
        constructor
        · intro _ id2 h2
          rcases List.mem_cons.mp h2 with h3 | h3
          · rw [h3, hf]; rfl
          · have : ∃ imgs, loadImagesM f rest = .ok imgs := ⟨imgs2, hr⟩
            exact ih.mp this id2 h3
        · intro _
          exact ⟨img :: imgs2, rfl⟩

theorem loadAnnotsM_length {Img : Type} (env : Env Img)
    (ids : List String) (anns : List (List (List ℚ)))
    (h : loadAnnotsM env ids = .ok anns) : anns.length = ids.length := by
  induction ids generalizing anns with
  | nil =>
    simp [loadAnnotsM] at h
    simp [← h]
  | cons id rest ih =>
    simp only [loadAnnotsM] at h
    cases hf : resolveAnnot env id with
    | error e => rw [hf] at h; cases h
    | ok t =>
      rw [hf] at h
      cases hr : loadAnnotsM env rest with
      | error e => rw [hr] at h; cases h
      | ok ts =>
        rw [hr] at h
        injection h with h
        rw [← h, List.length_cons, List.length_cons, ih ts hr]

theorem loadAnnotsM_ok_iff {Img : Type} (env : Env Img) (ids : List String) :
    (∃ anns, loadAnnotsM env ids = .ok anns) ↔
      ∀ id ∈ ids, ∃ t, resolveAnnot env id = .ok t := by
  induction ids with
  | nil => simp [loadAnnotsM]
  | cons id rest ih =>
    simp only [loadAnnotsM]
    cases hf : resolveAnnot env id with
    | error e =>
      simp only [List.mem_cons]
      constructor
      · rintro ⟨anns, hm⟩
        cases hm
      · intro hall
        rcases hall id (Or.inl rfl) with ⟨t, ht⟩
        rw [hf] at ht
        cases ht
    | ok t =>
      cases hr : loadAnnotsM env rest with
      | error e =>
        constructor
        · rintro ⟨anns, hm⟩
          cases hm
        · intro hall
          have : ∃ anns, loadAnnotsM env rest = .ok anns :=
            ih.mpr (fun id2 h2 => hall id2 (List.mem_cons_of_mem _ h2))
          rcases this with ⟨anns, hm⟩
          rw [hr] at hm
          cases hm
      | ok ts =>
        constructor
        · intro _ id2 h2
          rcases List.mem_cons.mp h2 with h3 | h3
          · exact ⟨t, by rw [h3, hf]⟩
          · exact ih.mp ⟨ts, hr⟩ id2 h3
        · intro _
          exact ⟨t :: ts, rfl⟩

theorem selectRowsM_length {α : Type} (A : List α) (idxes : List Nat) (rs : List α)
    (h : selectRowsM A idxes = some rs) : rs.length = idxes.length := by
  induction idxes generalizing rs with
  | nil =>
    simp [selectRowsM] at h
    simp [← h]
  | cons i rest ih =>
    simp only [selectRowsM] at h
    cases hg : A.get? i with
    | none => rw [hg] at h; cases h
    | some a =>
      rw [hg] at h
      cases hr : selectRowsM A rest with
      | none => rw [hr] at h; cases h
      | some rs2 =>
        rw [hr] at h
        injection h with h
        rw [← h, List.length_cons, List.length_cons, ih rs2 hr]

end LoadLemmas

theorem loadImagesM_error_only {Img : Type} (f : String → Option Img)
    (ids : List String) (e : VocError)
    (h : loadImagesM f ids = .error e) : e = .ioError := by
  induction ids generalizing e with
  | nil => simp [loadImagesM] at h
  | cons id rest ih =>
    simp only [loadImagesM] at h
    cases hf : f id with
    | none =>
      rw [hf] at h
      injection h with h
      exact h.symm
    | some img =>
      rw [hf] at h
      cases hr : loadImagesM f rest with
      | error e2 =>
        rw [hr] at h
        injection h with h
        rw [← h]
        exact ih e2 hr
      | ok imgs2 => rw [hr] at h; cases h

/-- C6.  `get_test_data` fails with `ShapeMismatch` if and only if the
row count of the resolved image batch differs from the row count of the
resolved feature batch or of the resolved label batch; and whenever the
three batches resolve, it returns exactly those three arrays, with equal
row counts, the feature and label rows being the rows of the loaded
arrays at the drawn identifiers' manifest positions (`testIdxSel`). -/
theorem C6_test_data_shape {Img F L : Type} (env : Env Img) (voc : PascalVOC)
    (size : Nat) (random : Bool) (sel : List Nat) (feats : List F) (labs : List L)
    (hsel : random = true → sel.Nodup ∧ sel.length = size ∧
      ∀ i ∈ sel, i < voc.test_set.rows.length) :
    (getTestData env voc size random sel feats labs = .error .shapeMismatch ↔
      ∃ ximg xr yr,
        loadImagesM env.imgSrc
          (Pdf.col0 ⟨(testIdxSel voc size random sel).filterMap
            (fun i => voc.test_set.rows.get? i)⟩) = .ok ximg ∧
        selectRowsM feats (testIdxSel voc size random sel) = some xr ∧
        selectRowsM labs (testIdxSel voc size random sel) = some yr ∧
        ¬ (ximg.length = xr.length ∧ xr.length = yr.length)) ∧
    (∀ (ximg : List Img) (xr : List F) (yr : List L),
      loadImagesM env.imgSrc
        (Pdf.col0 ⟨(testIdxSel voc size random sel).filterMap
          (fun i => voc.test_set.rows.get? i)⟩) = .ok ximg →
      selectRowsM feats (testIdxSel voc size random sel) = some xr →
      selectRowsM labs (testIdxSel voc size random sel) = some yr →
      getTestData env voc size random sel feats labs = .ok (ximg, xr, yr) ∧
      ximg.length = xr.length ∧ xr.length = yr.length) := by
  have hguard : ¬ ((random : Prop) ∧ ¬ size ≤ voc.test_set.rows.length) := by
    rintro ⟨hr, hn⟩
    have hb : random = true := hr
    obtain ⟨hnd, hlen, hrange⟩ := hsel hb
    have := length_le_of_nodup_lt sel voc.test_set.rows.length hnd hrange
    omega
  have hrange : ∀ i ∈ testIdxSel voc size random sel, i < voc.test_set.rows.length := by
    intro i hi
    unfold testIdxSel at hi
    cases hb : random with
    | true =>
      rw [hb] at hi
      simp only [if_pos] at hi
      exact (hsel hb).2.2 i hi
    | false =>
      rw [hb] at hi
      simp only [Bool.false_eq_true, if_neg] at hi
      have := List.mem_range.mp hi
      omega
  have hximg_len : ∀ ximg : List Img,
      loadImagesM env.imgSrc
        (Pdf.col0 ⟨(testIdxSel voc size random sel).filterMap
          (fun i => voc.test_set.rows.get? i)⟩) = .ok ximg →
      ximg.length = (testIdxSel voc size random sel).length := by
    intro ximg hx
    have h1 := loadImagesM_length _ _ _ hx
    rw [h1]
    unfold Pdf.col0
    rw [List.length_map]
    exact filterMap_get?_length voc.test_set.rows (testIdxSel voc size random sel) hrange
  have hlens : ∀ (ximg : List Img) (xr : List F) (yr : List L),
      loadImagesM env.imgSrc
        (Pdf.col0 ⟨(testIdxSel voc size random sel).filterMap
          (fun i => voc.test_set.rows.get? i)⟩) = .ok ximg →
      selectRowsM feats (testIdxSel voc size random sel) = some xr →
      selectRowsM labs (testIdxSel voc size random sel) = some yr →
      ximg.length = xr.length ∧ xr.length = yr.length := by
    intro ximg xr yr hx hxr hyr
    have h1 := hximg_len ximg hx
    have h2 := selectRowsM_length feats (testIdxSel voc size random sel) xr hxr
    have h3 := selectRowsM_length labs (testIdxSel voc size random sel) yr hyr
    omega
  cases hx : loadImagesM env.imgSrc
      (Pdf.col0 ⟨(testIdxSel voc size random sel).filterMap
        (fun i => voc.test_set.rows.get? i)⟩) with
  | error e =>
    have he := loadImagesM_error_only _ _ _ hx
    have hval : getTestData env voc size random sel feats labs = .error e := by
      unfold getTestData
      rw [if_neg hguard]
      simp only [hx]
    refine ⟨?_, ?_⟩
    · rw [hval]
      constructor
      · intro hcontra
        injection hcontra with hc
        rw [he] at hc
        cases hc
      · rintro ⟨ximg, xr, yr, hx2, _, _, _⟩
        exact Except.noConfusion hx2
    · intro ximg xr yr hx2 _ _
      exact Except.noConfusion hx2
  | ok ximg =>
    cases hxr : selectRowsM feats (testIdxSel voc size random sel) with
    | none =>
      have hval : getTestData env voc size random sel feats labs = .error .indexError := by
        unfold getTestData
        rw [if_neg hguard]
        simp only [hx, hxr]
      refine ⟨?_, ?_⟩
      · rw [hval]
        constructor
        · intro hcontra
          injection hcontra with hc
          cases hc
        · rintro ⟨ximg2, xr, yr, _, hxr2, _, _⟩
          exact Option.noConfusion hxr2
      · intro ximg2 xr yr _ hxr2 _
        exact Option.noConfusion hxr2
    | some xr =>
      cases hyr : selectRowsM labs (testIdxSel voc size random sel) with
      | none =>
        have hval : getTestData env voc size random sel feats labs = .error .indexError := by
          unfold getTestData
          rw [if_neg hguard]
          simp only [hx, hxr, hyr]
        refine ⟨?_, ?_⟩
        · rw [hval]
          constructor
          · intro hcontra
            injection hcontra with hc
            cases hc
          · rintro ⟨ximg2, xr2, yr, _, _, hyr2, _⟩
            exact Option.noConfusion hyr2
        · intro ximg2 xr2 yr _ _ hyr2
          exact Option.noConfusion hyr2
      | some yr =>
        have heq : ximg.length = xr.length ∧ xr.length = yr.length :=
          hlens ximg xr yr hx hxr hyr
        have hval : getTestData env voc size random sel feats labs = .ok (ximg, xr, yr) := by
          unfold getTestData
          rw [if_neg hguard]
          simp only [hx, hxr, hyr]
          rw [if_pos heq]
        refine ⟨?_, ?_⟩
        · rw [hval]
          constructor
          · intro hcontra
            exact Except.noConfusion hcontra
          · rintro ⟨ximg2, xr2, yr2, hx2, hxr2, hyr2, hne⟩
            injection hx2 with hx2
            injection hxr2 with hxr2
            injection hyr2 with hyr2
            subst hx2
            subst hxr2
            subst hyr2
            exact absurd heq hne
        · intro ximg2 xr2 yr2 hx2 hxr2 hyr2
          injection hx2 with hx2
          injection hxr2 with hxr2
          injection hyr2 with hyr2
          subst hx2
          subst hxr2
          subst hyr2
          exact ⟨hval, heq⟩

/-- An environment whose image store always decodes (to the dummy image
`7`) and whose annotation store is empty. -/
def envC6 : Env Nat := ⟨fun _ => some 7, fun _ => none, randZero⟩

/-- A dataset whose test manifest has the three identifiers a, b, c. -/
def vocTest : PascalVOC := ⟨⟨[]⟩, ⟨[]⟩, ⟨[["a"], ["b"], ["c"]]⟩, 0⟩

/-- C6, witness: the shape theorem applied to a concrete
`get_test_data(size=2, random=false)` call with three-row feature and
label arrays. -/
theorem C6_witness :
    (getTestData envC6 vocTest 2 false [] [10, 20, 30] [5, 6, 7] =
        .error .shapeMismatch ↔
      ∃ ximg xr yr,
        loadImagesM envC6.imgSrc
          (Pdf.col0 ⟨(testIdxSel vocTest 2 false []).filterMap
            (fun i => vocTest.test_set.rows.get? i)⟩) = .ok ximg ∧
        selectRowsM [10, 20, 30] (testIdxSel vocTest 2 false []) = some xr ∧
        selectRowsM [5, 6, 7] (testIdxSel vocTest 2 false []) = some yr ∧
        ¬ (ximg.length = xr.length ∧ xr.length = yr.length)) ∧
    (∀ (ximg : List Nat) (xr : List Nat) (yr : List Nat),
      loadImagesM envC6.imgSrc
        (Pdf.col0 ⟨(testIdxSel vocTest 2 false []).filterMap
          (fun i => vocTest.test_set.rows.get? i)⟩) = .ok ximg →
      selectRowsM [10, 20, 30] (testIdxSel vocTest 2 false []) = some xr →
      selectRowsM [5, 6, 7] (testIdxSel vocTest 2 false []) = some yr →
      getTestData envC6 vocTest 2 false [] [10, 20, 30] [5, 6, 7] =
        .ok (ximg, xr, yr) ∧
      ximg.length = xr.length ∧ xr.length = yr.length) :=
  C6_test_data_shape envC6 vocTest 2 false [] [10, 20, 30] [5, 6, 7]
    (fun h => by cases h)

/-- C7.  Batch calls are all-or-nothing.  For `next_image_minibatch`
(with the selected batch `mb`): a successful return carries one image
and one annotation tensor per drawn identifier — every identifier's
image and annotation resolved; if any identifier's image is missing or
its annotation fails to resolve, the whole call returns an error, with
no partial batch; the returned dataset state is the post-selection state
(the cursor mutation precedes materialization) whether the call succeeds
or fails.  For `get_test_data`: a successful return has the three
components row-aligned with the full drawn selection, and a missing
image among the drawn identifiers makes the whole call error. -/
theorem C7_batch_atomicity {Img F L : Type} (env : Env Img) (voc : PascalVOC)
    (size : Nat) (random reset : Bool) (mode : String) (sel : List Nat) (mb : Pdf)
    (tsize : Nat) (trandom : Bool) (tsel : List Nat) (feats : List F) (labs : List L)
    (t : List Img × List F × List L)
    (hmb : (selectMinibatch voc size random reset mode sel).1 = .ok mb) :
    (∀ imgs anns,
      (nextImageMinibatch env voc size random reset mode sel).1 = .ok (imgs, anns) →
        imgs.length = mb.col0.length ∧ anns.length = mb.col0.length ∧
        ∀ id ∈ mb.col0, (env.imgSrc id).isSome ∧ ∃ u, resolveAnnot env id = .ok u) ∧
    ((∃ id ∈ mb.col0, env.imgSrc id = none ∨ ∃ e, resolveAnnot env id = .error e) →
      ∃ e, (nextImageMinibatch env voc size random reset mode sel).1 = .error e) ∧
    ((nextImageMinibatch env voc size random reset mode sel).2 =
      (selectMinibatch voc size random reset mode sel).2) ∧
    (getTestData env voc tsize trandom tsel feats labs = .ok t →
      t.1.length = t.2.1.length ∧ t.2.1.length = t.2.2.length ∧
      t.2.1.length = (testIdxSel voc tsize trandom tsel).length) ∧
    ((∃ id ∈ Pdf.col0 ⟨(testIdxSel voc tsize trandom tsel).filterMap
        (fun i => voc.test_set.rows.get? i)⟩, env.imgSrc id = none) →
      ∃ e, getTestData env voc tsize trandom tsel feats labs = .error e) := by
  have hnext : nextImageMinibatch env voc size random reset mode sel =
      (loadBatch env mb, (selectMinibatch voc size random reset mode sel).2) := by
    unfold nextImageMinibatch
    simp only [hmb]
  refine ⟨?_, ?_, ?_, ?_, ?_⟩
  · intro imgs anns hok
    rw [hnext] at hok
    simp only at hok
    unfold loadBatch at hok
    cases hli : loadImagesM env.imgSrc mb.col0 with
    | error e => rw [hli] at hok; cases hok
    | ok imgs2 =>
      rw [hli] at hok
      cases hla : loadAnnotsM env mb.col0 with
      | error e => rw [hla] at hok; cases hok
      | ok anns2 =>
        rw [hla] at hok
        injection hok with hok
        injection hok with h1 h2
        refine ⟨h1 ▸ loadImagesM_length _ _ _ hli, h2 ▸ loadAnnotsM_length _ _ _ hla, ?_⟩
        intro id hid
        exact ⟨(loadImagesM_ok_iff env.imgSrc mb.col0).mp ⟨imgs2, hli⟩ id hid,
          (loadAnnotsM_ok_iff env mb.col0).mp ⟨anns2, hla⟩ id hid⟩
  · rintro ⟨id, hid, hfail⟩
    rw [hnext]
    simp only
    unfold loadBatch
    cases hli : loadImagesM env.imgSrc mb.col0 with
    | error e => exact ⟨e, rfl⟩
    | ok imgs2 =>
      cases hla : loadAnnotsM env mb.col0 with
      | error e => exact ⟨e, rfl⟩
      | ok anns2 =>
        exfalso
        rcases hfail with hnone | ⟨e, herr⟩
        · have := (loadImagesM_ok_iff env.imgSrc mb.col0).mp ⟨imgs2, hli⟩ id hid
          rw [hnone] at this
          cases this
        · rcases (loadAnnotsM_ok_iff env mb.col0).mp ⟨anns2, hla⟩ id hid with ⟨u, hu⟩
          rw [herr] at hu
          cases hu
  · rw [hnext]
  · intro ht
    unfold getTestData at ht
    by_cases hg2 : (trandom : Prop) ∧ ¬ tsize ≤ voc.test_set.rows.length
    · rw [if_pos hg2] at ht
      cases ht
    · rw [if_neg hg2] at ht
      cases hli2 : loadImagesM env.imgSrc
          (Pdf.col0 ⟨(testIdxSel voc tsize trandom tsel).filterMap
            (fun i => voc.test_set.rows.get? i)⟩) with
      | error e =>
        simp only [hli2] at ht
        exact Except.noConfusion ht
      | ok ximg =>
        cases hxr2 : selectRowsM feats (testIdxSel voc tsize trandom tsel) with
        | none =>
          simp only [hli2, hxr2] at ht
          exact Except.noConfusion ht
        | some xr =>
          cases hyr2 : selectRowsM labs (testIdxSel voc tsize trandom tsel) with
          | none =>
            simp only [hli2, hxr2, hyr2] at ht
            exact Except.noConfusion ht
          | some yr =>
            simp only [hli2, hxr2, hyr2] at ht
            by_cases heq2 : ximg.length = xr.length ∧ xr.length = yr.length
            · rw [if_pos heq2] at ht
              injection ht with ht
              have h2 := selectRowsM_length feats (testIdxSel voc tsize trandom tsel) xr hxr2
              rw [← ht]
              exact ⟨heq2.1, heq2.2, h2⟩
            · rw [if_neg heq2] at ht
              exact Except.noConfusion ht
  · rintro ⟨id, hid, hnone⟩
    unfold getTestData
    by_cases hg2 : (trandom : Prop) ∧ ¬ tsize ≤ voc.test_set.rows.length
    · rw [if_pos hg2]
      exact ⟨.valueError, rfl⟩
    · rw [if_neg hg2]
      simp only
      cases hli2 : loadImagesM env.imgSrc
          (Pdf.col0 ⟨(testIdxSel voc tsize trandom tsel).filterMap
            (fun i => voc.test_set.rows.get? i)⟩) with
      | error e => exact ⟨e, rfl⟩
      | ok ximg =>
        exfalso
        have := (loadImagesM_ok_iff env.imgSrc _).mp ⟨ximg, hli2⟩ id hid
        rw [hnone] at this
        cases this

/-- An environment where every image decodes (to the dummy image `0`)
and every annotation decodes to the well-formed record `recC1W`. -/
def envC7 : Env Nat := ⟨fun _ => some 0, fun _ => some recC1W, randZero⟩

/-- A concrete candidate result triple for `get_test_data`. -/
def tC7W : List Nat × List Nat × List Nat := ([0, 0], [1, 2], [3, 4])

/-- C7, witness: the atomicity theorem applied to a concrete sequential
batch of two identifiers, discharging the selected-batch hypothesis. -/
theorem C7_witness :
    (∀ imgs anns,
      (nextImageMinibatch envC7 vocSeqW 2 false false "single" []).1 =
          .ok (imgs, anns) →
        imgs.length = (Pdf.col0 ⟨[["a"], ["b"]]⟩).length ∧
        anns.length = (Pdf.col0 ⟨[["a"], ["b"]]⟩).length ∧
        ∀ id ∈ Pdf.col0 ⟨[["a"], ["b"]]⟩, (envC7.imgSrc id).isSome ∧
          ∃ u, resolveAnnot envC7 id = .ok u) ∧
    ((∃ id ∈ Pdf.col0 ⟨[["a"], ["b"]]⟩, envC7.imgSrc id = none ∨
        ∃ e, resolveAnnot envC7 id = .error e) →
      ∃ e, (nextImageMinibatch envC7 vocSeqW 2 false false "single" []).1 =
        .error e) ∧
    ((nextImageMinibatch envC7 vocSeqW 2 false false "single" []).2 =
      (selectMinibatch vocSeqW 2 false false "single" []).2) ∧
    (getTestData envC7 vocSeqW 2 false [] [1, 2, 3] [4, 5, 6] = .ok tC7W →
      tC7W.1.length = tC7W.2.1.length ∧ tC7W.2.1.length = tC7W.2.2.length ∧
      tC7W.2.1.length = (testIdxSel vocSeqW 2 false []).length) ∧
    ((∃ id ∈ Pdf.col0 ⟨(testIdxSel vocSeqW 2 false []).filterMap
        (fun i => vocSeqW.test_set.rows.get? i)⟩, envC7.imgSrc id = none) →
      ∃ e, getTestData envC7 vocSeqW 2 false [] [1, 2, 3] [4, 5, 6] = .error e) :=
  C7_batch_atomicity envC7 vocSeqW 2 false false "single" [] ⟨[["a"], ["b"]]⟩
    2 false [] [1, 2, 3] [4, 5, 6] tC7W (by decide)

section DrawLemmas

theorem mapWithIdx_get? (f : Nat → α → β) (n : Nat) (l : List α) (i : Nat) :
    (mapWithIdx f n l).get? i = (l.get? i).map (f (n + i)) := by
  induction l generalizing n i with
  | nil => simp [mapWithIdx]
  | cons a rest ih =>
    cases i with
    | zero => simp [mapWithIdx]
    | succ i2 =>
      simp only [mapWithIdx, List.get?_cons_succ]
      rw [ih (n + 1) i2]
      have harith : n + 1 + i2 = n + (i2 + 1) := by omega
      rw [harith]

theorem mapWithIdx_length (f : Nat → α → β) (n : Nat) (l : List α) :
    (mapWithIdx f n l).length = l.length := by
  induction l generalizing n with
  | nil => rfl
  | cons a rest ih => simp [mapWithIdx, ih]

theorem mapWithIdx_forall (f : Nat → α → β) (P : β → Prop)
    (l : List α) (h : ∀ k a, a ∈ l → P (f k a)) :
    ∀ (n : Nat), ∀ b ∈ mapWithIdx f n l, P b := by
  induction l with
  | nil => intro n b hb; cases hb
  | cons a rest ih =>
    intro n b hb
    rcases List.mem_cons.mp hb with hb2 | hb2
    · rw [hb2]; exact h n a (List.mem_cons_self a rest)
    · exact ih (fun k a2 ha2 => h k a2 (List.mem_cons_of_mem _ ha2)) (n + 1) b hb2

theorem sliceAssign_length (img : List (List α)) (r1 r2 c1 c2 : ℤ) (v : α) :
    (sliceAssign img r1 r2 c1 c2 v).length = img.length :=
  mapWithIdx_length _ 0 img

theorem sliceAssign_rect (img : List (List α)) (w : Nat) (r1 r2 c1 c2 : ℤ) (v : α)
    (hrect : ∀ row ∈ img, row.length = w) :
    ∀ row ∈ sliceAssign img r1 r2 c1 c2 v, row.length = w := by
  apply mapWithIdx_forall
  intro k row hrow
  by_cases hb : inSlice img.length r1 r2 k
  · simp only [hb, if_true]
    rw [mapWithIdx_length]
    exact hrect row hrow
  · simp only [hb, if_false]
    exact hrect row hrow

theorem sliceAssign_cell (img : List (List α)) (w : Nat) (r1 r2 c1 c2 : ℤ) (v : α)
    (i j : Nat) (hrect : ∀ row ∈ img, row.length = w) :
    cellGet (sliceAssign img r1 r2 c1 c2 v) i j =
      (cellGet img i j).map (fun p =>
        if inSlice img.length r1 r2 i && inSlice w c1 c2 j then v else p) := by
  unfold cellGet sliceAssign
  rw [mapWithIdx_get?]
  cases hg : img.get? i with
  | none => simp
  | some row =>
    have hw : row.length = w := hrect row (List.get?_mem hg)
    simp only [Option.map_some', Option.some_bind, Nat.zero_add]
    by_cases hb : inSlice img.length r1 r2 i
    · simp only [hb, if_true, Bool.true_and]
      rw [mapWithIdx_get?]
      cases hrj : row.get? j with
      | none => simp
      | some p =>
        simp only [Option.map_some', Nat.zero_add, hw]
    · have hbf : inSlice img.length r1 r2 i = false := by
        cases hx2 : inSlice img.length r1 r2 i
        · rfl
        · exact absurd hx2 hb
      cases hrj : row.get? j with
      | none =>
        simp [hbf]
        exact List.get?_eq_none.mp hrj
      | some p =>
        simp [hbf]
        rw [← List.get?_eq_getElem?]
        exact hrj

theorem paint_compose (p c : α) (b1 b2 b3 b4 : Bool) :
    (if b4 then c else if b3 then c else if b2 then c else if b1 then c else p) =
      (if b1 || b2 || b3 || b4 then c else p) := by
  cases b1 <;> cases b2 <;> cases b3 <;> cases b4 <;> simp

end DrawLemmas

theorem sliceAssign4_cell {α : Type} (img : List (List α)) (w : Nat) (v : α)
    (a1 b1 c1 d1 a2 b2 c2 d2 a3 b3 c3 d3 a4 b4 c4 d4 : ℤ) (i j : Nat)
    (hrect : ∀ row ∈ img, row.length = w) :
    cellGet (sliceAssign (sliceAssign (sliceAssign
        (sliceAssign img a1 b1 c1 d1 v) a2 b2 c2 d2 v) a3 b3 c3 d3 v)
        a4 b4 c4 d4 v) i j =
      (cellGet img i j).map (fun p =>
        if (inSlice img.length a1 b1 i && inSlice w c1 d1 j) ||
           (inSlice img.length a2 b2 i && inSlice w c2 d2 j) ||
           (inSlice img.length a3 b3 i && inSlice w c3 d3 j) ||
           (inSlice img.length a4 b4 i && inSlice w c4 d4 j) then v else p) := by
  have hr1 := sliceAssign_rect img w a1 b1 c1 d1 v hrect
  have hr2 := sliceAssign_rect _ w a2 b2 c2 d2 v hr1
  have hr3 := sliceAssign_rect _ w a3 b3 c3 d3 v hr2
  have hl1 := sliceAssign_length img a1 b1 c1 d1 v
  have hl2 := sliceAssign_length (sliceAssign img a1 b1 c1 d1 v) a2 b2 c2 d2 v
  have hl3 := sliceAssign_length
    (sliceAssign (sliceAssign img a1 b1 c1 d1 v) a2 b2 c2 d2 v) a3 b3 c3 d3 v
  rw [sliceAssign_cell _ w a4 b4 c4 d4 v i j hr3,
      sliceAssign_cell _ w a3 b3 c3 d3 v i j hr2,
      sliceAssign_cell _ w a2 b2 c2 d2 v i j hr1,
      sliceAssign_cell _ w a1 b1 c1 d1 v i j hrect]
  rw [hl3, hl2, hl1]
  rw [Option.map_map, Option.map_map, Option.map_map]
  cases hcg : cellGet img i j with
  | none => simp
  | some p =>
    simp only [Option.map_some', Function.comp_apply]
    congr 1
    exact paint_compose p v _ _ _ _

/-- Per-cell characterization of `draw_bbox` on a rectangular image:
a cell is the stroke color exactly when it belongs to one of the four
border strips, and the original pixel otherwise. -/
theorem drawBboxImg_cell {α : Type} (img : List (List α)) (bbox : ℚ × ℚ × ℚ × ℚ)
    (color : α) (lw : ℤ) (i j : Nat)
    (hrect : ∀ row ∈ img, row.length = (img.headD []).length) :
    cellGet (drawBboxImg img bbox color lw) i j =
      (cellGet img i j).map (fun p =>
        if borderCell img.length (img.headD []).length bbox lw i j
        then color else p) :=
  sliceAssign4_cell img ((img.headD []).length) color _ _ _ _ _ _ _ _ _ _ _ _ _ _ _ _ i j hrect

/-- C9.  `draw_bbox` copies its input (`np.copy`) and paints the copy:
in the buffer-store model the call allocates a fresh reference (distinct
from every existing one, in particular from the caller's), every
existing buffer — the input image included — is unchanged, and the new
reference holds the painted image, whose every cell is the stroke color
on the four denormalized border strips and the original pixel
elsewhere. -/
theorem C9_draw_bbox_copy {α : Type} (store : List (List (List α))) (ref : Nat)
    (bbox : ℚ × ℚ × ℚ × ℚ) (color : α) (lw : ℤ)
    (hrect : ∀ row ∈ store.getD ref [],
      row.length = ((store.getD ref []).headD []).length) :
    ((drawBboxStore store ref bbox color lw).2 = store.length) ∧
    (∀ i, i < store.length →
      (drawBboxStore store ref bbox color lw).1.get? i = store.get? i) ∧
    ((drawBboxStore store ref bbox color lw).1.get?
        (drawBboxStore store ref bbox color lw).2 =
      some (drawBboxImg (store.getD ref []) bbox color lw)) ∧
    (∀ i j, cellGet (drawBboxImg (store.getD ref []) bbox color lw) i j =
      (cellGet (store.getD ref []) i j).map (fun p =>
        if borderCell (store.getD ref []).length
            ((store.getD ref []).headD []).length bbox lw i j
        then color else p)) := by
  refine ⟨rfl, ?_, ?_, ?_⟩
  · intro i hi
    show (store ++ [drawBboxImg (store.getD ref []) bbox color lw]).get? i = store.get? i
    exact List.get?_append hi
  · show (store ++ [drawBboxImg (store.getD ref []) bbox color lw]).get? store.length = _
    exact List.get?_concat_length store _
  · intro i j
    exact drawBboxImg_cell (store.getD ref []) bbox color lw i j hrect

/-- A concrete 2×2 single-image store. -/
def storeC9W : List (List (List Nat)) := [[[1, 2], [3, 4]]]

/-- C9, witness: the copy-on-write theorem applied to the concrete
store `storeC9W`, reference 0, a unit box and stroke width 1. -/
theorem C9_witness :
    ((drawBboxStore storeC9W 0 (0, 0, 1, 1) 9 1).2 = storeC9W.length) ∧
    (∀ i, i < storeC9W.length →
      (drawBboxStore storeC9W 0 (0, 0, 1, 1) 9 1).1.get? i = storeC9W.get? i) ∧
    ((drawBboxStore storeC9W 0 (0, 0, 1, 1) 9 1).1.get?
        (drawBboxStore storeC9W 0 (0, 0, 1, 1) 9 1).2 =
      some (drawBboxImg (storeC9W.getD 0 []) (0, 0, 1, 1) 9 1)) ∧
    (∀ i j, cellGet (drawBboxImg (storeC9W.getD 0 []) (0, 0, 1, 1) 9 1) i j =
      (cellGet (storeC9W.getD 0 []) i j).map (fun p =>
        if borderCell (storeC9W.getD 0 []).length
            ((storeC9W.getD 0 []).headD []).length (0, 0, 1, 1) 1 i j
        then 9 else p)) :=
  C9_draw_bbox_copy storeC9W 0 (0, 0, 1, 1) 9 1 (by decide)
